import Mathlib

/-!
# Metrics View (`project-2/src/ChartMatter.jsx`)

A shallow embedding of the quarter filter, the month grouping and the chart-series
assembly of `updateChartData`, and of the four-field view state around it
(`rawData`, `chartData`, `error`, `selectedQuarter`).

Conventions of the embedding.

* A computation that can throw an uncaught `TypeError` returns an `Option`; `none`
  is the throw.  Property reads on `null`/`undefined`, `.split` on a non-string and
  `.find`/`.map`/`.push` on `undefined` are the throwing operations of the source.
* A finite JavaScript number is kept as its exact rational value (every double is a
  rational).  Rounding of a decimal literal to the nearest double is not modelled, so
  the constant `0.1` is the rational `1/10`; comparison against it and `Math.max`
  involve no rounding.
* A JavaScript object used as a dictionary is an association list in insertion order,
  which is the order `Object.keys` enumerates non-numeric string keys in.
-/

namespace ChartMatter

/-! ## JavaScript values -/

/-- A JavaScript number: a finite value, `NaN`, `Infinity` or `-Infinity`. -/
inductive JsNumber where
  | fin (q : ℚ)
  | nan
  | posInf
  | negInf
  deriving DecidableEq

/-- A primitive JavaScript value, as a sheet cell or a JSON scalar can hold it.
`undefined` is what reading an absent property yields. -/
inductive JsValue where
  | undefined
  | null
  | bool (b : Bool)
  | num (n : JsNumber)
  | str (s : String)
  deriving DecidableEq

/-- One element of the fetched array.  `record` is a plain object whose fields hold
scalars (a parsed sheet row); `prim` is any element that is not an object (`null`,
a number, a string, ...).  An array element without own named properties reads like
`record []`. -/
inductive Row where
  | prim (v : JsValue)
  | record (fields : List (String × JsValue))
  deriving DecidableEq

/-- The constant `0.1` of line 200. -/
def tenth : ℚ := Rat.mk' 1 10 (by decide) (by decide)

/-- The abstract operation `ToBoolean` on primitives: `undefined`, `null`, `false`,
`0`, `NaN` and `""` are falsy. -/
def JsValue.toBoolean : JsValue → Bool
  | .undefined => false
  | .null => false
  | .bool b => b
  | .num (.fin q) => q != 0
  | .num .nan => false
  | .num .posInf => true
  | .num .negInf => true
  | .str s => s != ""

/-- The operation `ToBoolean` on an array element: every object is truthy. -/
def Row.toBoolean : Row → Bool
  | .prim v => v.toBoolean
  | .record _ => true

/-- Property read `row[key]`, for the keys the component reads (`Month` and the nine
metric labels, none of which is a property of a primitive wrapper or of
`Object.prototype`).  Reading a property of `null` or `undefined` throws. -/
def Row.get : Row → String → Option JsValue
  | .prim .undefined, _ => none
  | .prim .null, _ => none
  | .prim _, _ => some .undefined
  | .record fields, key => some ((fields.lookup key).getD .undefined)

/-- The value of `s.split(" ")[0]`: the part of `s` before its first space. -/
def firstToken (s : String) : String :=
  String.mk (s.toList.takeWhile (fun c => c != ' '))

/-- Strict equality `===` on primitives (`NaN` differs from itself). -/
def JsValue.strictEq : JsValue → JsValue → Bool
  | .num .nan, _ => false
  | _, .num .nan => false
  | a, b => a == b

/-! ## `ToNumber` and `Math.max` -/

/-- White space and line terminators stripped by `StringToNumber`. -/
def isStrWhiteSpace (c : Char) : Bool :=
  let n := c.toNat
  n == 0x9 || n == 0xA || n == 0xB || n == 0xC || n == 0xD || n == 0x20 || n == 0xA0
    || n == 0x1680 || (0x2000 ≤ n && n ≤ 0x200A) || n == 0x2028 || n == 0x2029
    || n == 0x202F || n == 0x205F || n == 0x3000 || n == 0xFEFF

/-- Value of one digit in the given radix, if the character is such a digit. -/
def digitValue (radix : Nat) (c : Char) : Option Nat :=
  let n := c.toNat
  let d : Option Nat :=
    if 48 ≤ n && n ≤ 57 then some (n - 48)
    else if 97 ≤ n && n ≤ 102 then some (n - 87)
    else if 65 ≤ n && n ≤ 70 then some (n - 55)
    else none
  match d with
  | some v => if v < radix then some v else none
  | none => none

/-- Value of a digit sequence read left to right from the accumulator `acc`; `none`
when a character is not a digit of the radix. -/
def digitsFrom (radix : Nat) (acc : Nat) : List Char → Option Nat
  | [] => some acc
  | c :: cs =>
    match digitValue radix c with
    | some v => digitsFrom radix (acc * radix + v) cs
    | none => none

/-- Value of a non-empty digit sequence. -/
def parseDigits (radix : Nat) (cs : List Char) : Option Nat :=
  if cs.isEmpty then none else digitsFrom radix 0 cs

/-- The grammar's `ExponentPart` (optional): empty, or `e`/`E`, an optional sign and
decimal digits. -/
def parseExponent : List Char → Option Int
  | [] => some 0
  | c :: rest =>
    if c == 'e' || c == 'E' then
      match rest with
      | '+' :: ds => (parseDigits 10 ds).map Int.ofNat
      | '-' :: ds => (parseDigits 10 ds).map (fun n => - Int.ofNat n)
      | ds => (parseDigits 10 ds).map Int.ofNat
    else none

/-- The grammar's `StrUnsignedDecimalLiteral`: `Infinity`, or digits with an optional
fraction and exponent, at least one digit around the point. -/
def parseUnsignedDecimal (cs : List Char) : JsNumber :=
  if cs == "Infinity".toList then .posInf
  else
    let intPart := cs.takeWhile Char.isDigit
    let rest := cs.dropWhile Char.isDigit
    let fracPart := match rest with
      | '.' :: r => r.takeWhile Char.isDigit
      | _ => []
    let tail := match rest with
      | '.' :: r => r.dropWhile Char.isDigit
      | _ => rest
    if intPart.isEmpty && fracPart.isEmpty then .nan
    else
      match digitsFrom 10 0 (intPart ++ fracPart), parseExponent tail with
      | some m, some e =>
        let shift : Int := e - Int.ofNat fracPart.length
        if 0 ≤ shift then .fin (mkRat (Int.ofNat (m * 10 ^ shift.toNat)) 1)
        else .fin (mkRat (Int.ofNat m) (10 ^ (- shift).toNat))
      | _, _ => .nan

/-- Negation of a number. -/
def JsNumber.neg : JsNumber → JsNumber
  | .fin q => .fin (- q)
  | .nan => .nan
  | .posInf => .negInf
  | .negInf => .posInf

/-- The operation `StringToNumber`: white space is trimmed, the empty string is `0`,
a hex, octal or binary literal carries no sign, and anything outside the grammar is
`NaN`. -/
def stringToNumber (s : String) : JsNumber :=
  let cs := ((s.toList.dropWhile isStrWhiteSpace).reverse.dropWhile isStrWhiteSpace).reverse
  match cs with
  | [] => .fin 0
  | '0' :: p :: ds =>
    if p == 'x' || p == 'X' then
      match parseDigits 16 ds with
      | some n => .fin (mkRat (Int.ofNat n) 1)
      | none => .nan
    else if p == 'o' || p == 'O' then
      match parseDigits 8 ds with
      | some n => .fin (mkRat (Int.ofNat n) 1)
      | none => .nan
    else if p == 'b' || p == 'B' then
      match parseDigits 2 ds with
      | some n => .fin (mkRat (Int.ofNat n) 1)
      | none => .nan
    else parseUnsignedDecimal cs
  | '+' :: r => parseUnsignedDecimal r
  | '-' :: r => (parseUnsignedDecimal r).neg
  | _ => parseUnsignedDecimal cs

/-- The abstract operation `ToNumber` on primitives. -/
def JsValue.toNumber : JsValue → JsNumber
  | .undefined => .nan
  | .null => .fin 0
  | .bool true => .fin 1
  | .bool false => .fin 0
  | .num n => n
  | .str s => stringToNumber s

/-- The larger of two numbers as `Math.max` computes it: `NaN` if either is `NaN`. -/
def JsNumber.max : JsNumber → JsNumber → JsNumber
  | .nan, _ => .nan
  | _, .nan => .nan
  | .posInf, _ => .posInf
  | _, .posInf => .posInf
  | .negInf, b => b
  | a, .negInf => a
  | .fin x, .fin y => .fin (Max.max x y)

/-- The call `Math.max(a, b)`: both arguments go through `ToNumber`. -/
def mathMax (a b : JsValue) : JsNumber :=
  JsNumber.max a.toNumber b.toNumber

/-- The comparison `a <= b` on numbers (false when either side is `NaN`). -/
def JsNumber.le : JsNumber → JsNumber → Bool
  | .nan, _ => false
  | _, .nan => false
  | .negInf, _ => true
  | _, .posInf => true
  | .posInf, _ => false
  | _, .negInf => false
  | .fin x, .fin y => decide (x ≤ y)

/-! ## Fixed tables of the component -/

/-- The keys of the `quarters` table (lines 119-124); the four quarter buttons are
the only source of a selected quarter. -/
inductive Quarter where
  | Q1
  | Q2
  | Q3
  | Q4
  deriving DecidableEq

/-- The table `quarters` (lines 119-124). -/
def quarters : Quarter → List String
  | .Q1 => ["Jan", "Feb", "March"]
  | .Q2 => ["April", "May", "Jun"]
  | .Q3 => ["Jul", "Aug", "Sep"]
  | .Q4 => ["Oct", "Nov", "Dec"]

/-- The table `datasetConfigs` (lines 107-117): metric label and bar colour. -/
def datasetConfigs : List (String × String) :=
  [("Test Cases Authored", "rgba(255, 99, 132, 0.7)"),
   ("TC Execution", "rgba(54, 162, 235, 0.7)"),
   ("Pass", "rgba(75, 192, 192, 0.7)"),
   ("Fail", "rgba(255, 206, 86, 0.7)"),
   ("Defects Posted", "rgba(215, 216, 80, 0.7)"),
   ("High", "rgba(153, 102, 255, 0.7)"),
   ("Med", "rgba(255, 159, 64, 0.7)"),
   ("Low", "rgba(231, 233, 237, 0.7)"),
   ("Cycles", "rgba(102, 187, 106, 0.7)")]

/-- One entry of `datasets`: a metric label, its values and its colour. -/
structure Dataset where
  label : String
  data : List JsNumber
  backgroundColor : String
  deriving DecidableEq

/-- The object handed to `setChartData` (line 205). -/
structure ChartData where
  labels : List JsValue
  datasets : List Dataset
  deriving DecidableEq

/-! ## Array methods with a callback that may throw -/

/-- The method `Array.prototype.filter`; a throwing callback aborts the call. -/
def filterT {α : Type} (p : α → Option Bool) : List α → Option (List α)
  | [] => some []
  | x :: xs =>
    match p x with
    | none => none
    | some b =>
      match filterT p xs with
      | none => none
      | some r => some (if b then x :: r else r)

/-- The method `Array.prototype.map`; a throwing callback aborts the call. -/
def mapT {α β : Type} (f : α → Option β) : List α → Option (List β)
  | [] => some []
  | x :: xs =>
    match f x with
    | none => none
    | some y =>
      match mapT f xs with
      | none => none
      | some r => some (y :: r)

/-- The method `Array.prototype.reduce` with an initial value. -/
def reduceT {σ α : Type} (f : σ → α → Option σ) : σ → List α → Option σ
  | acc, [] => some acc
  | acc, x :: xs =>
    match f acc x with
    | none => none
    | some acc1 => reduceT f acc1 xs

/-- The method `Array.prototype.find`: the first element the callback accepts, or
`undefined` (the inner `none`). -/
def findT {α : Type} (p : α → Option Bool) : List α → Option (Option α)
  | [] => some none
  | x :: xs =>
    match p x with
    | none => none
    | some true => some (some x)
    | some false => findT p xs

/-! ## The object `groupedData` -/

/-- The accumulator of the `reduce` at lines 178-189: month key to bucket, in key
insertion order. -/
abbrev Groups := List (String × List Row)

/-- The read `groupedData[key]`; `none` is `undefined`. -/
def Groups.get (g : Groups) (key : String) : Option (List Row) :=
  g.lookup key

/-- The write `groupedData[key] = bucket`: an existing key keeps its position, a new
key goes last. -/
def Groups.set : Groups → String → List Row → Groups
  | [], key, bucket => [(key, bucket)]
  | (k, b) :: rest, key, bucket =>
    if k == key then (k, bucket) :: rest else (k, b) :: Groups.set rest key bucket

/-! ## `updateChartData` (lines 160-206) -/

/-- The `filter` callback of lines 168-175. -/
def filterCallback (quarterMonths : List String) (row : Row) : Option Bool :=
  if !row.toBoolean then some false
  else
    match row.get "Month" with
    | none => none
    | some (.str s) => some (quarterMonths.contains (firstToken s))
    | some _ => some false

/-- The `reduce` callback of lines 178-189. -/
def groupCallback (acc : Groups) (row : Row) : Option Groups :=
  if !row.toBoolean then some acc
  else
    match row.get "Month" with
    | none => none
    | some (.str s) =>
      let month := firstToken s
      let acc1 := if (acc.get month).isNone then acc.set month [] else acc
      match acc1.get month with
      | none => none
      | some bucket => some (acc1.set month (bucket ++ [row]))
    | some _ => some acc

/-- The expression of lines 191-193:
`Object.keys(groupedData).flatMap(month => groupedData[month].map(row => row.Month))`. -/
def labelsOf (groupedData : Groups) : Option (List JsValue) :=
  (mapT (fun month =>
      match groupedData.get month with
      | none => none
      | some bucket => mapT (fun row => row.get "Month") bucket)
    (groupedData.map Prod.fst)).map List.flatten

/-- The operand `rowData && rowData[label] ? rowData[label] : 0` of line 200, where
`rowData` is the result of `find` (`none` is `undefined`). -/
def metricOperand (rowData : Option Row) (label : String) : Option JsValue :=
  match rowData with
  | none => some (.num (.fin 0))
  | some r =>
    if !r.toBoolean then some (.num (.fin 0))
    else
      match r.get label with
      | none => none
      | some v => some (if v.toBoolean then v else .num (.fin 0))

/-- The `labels.map` callback of lines 197-201 for the metric `label`. -/
def seriesValue (groupedData : Groups) (label : String) (monthLabel : JsValue) :
    Option JsNumber :=
  match monthLabel with
  | .str s =>
    match groupedData.get (firstToken s) with
    | none => none
    | some monthData =>
      match findT (fun row => (row.get "Month").map (fun m => m.strictEq monthLabel))
          monthData with
      | none => none
      | some rowData =>
        match metricOperand rowData label with
        | none => none
        | some v => some (mathMax v (.num (.fin tenth)))
  | _ => none

/-- The expression `datasetConfigs.map(...)` of lines 195-203. -/
def datasetsOf (groupedData : Groups) (labels : List JsValue) : Option (List Dataset) :=
  mapT (fun cfg =>
      match mapT (seriesValue groupedData cfg.1) labels with
      | none => none
      | some data => some { label := cfg.1, data := data, backgroundColor := cfg.2 })
    datasetConfigs

/-- The argument `data` of `updateChartData`: an array of rows or something else. -/
inductive JsData where
  | notArray
  | array (rows : List Row)
  deriving DecidableEq

/-- The state setter `updateChartData` ends with. -/
inductive Update where
  | setError (msg : String)
  | setChartData (cd : ChartData)
  deriving DecidableEq

/-- Lines 167-205 of `updateChartData`, past the guard: filter, group, labels,
datasets. -/
def buildChartData (rows : List Row) (quarter : Quarter) : Option ChartData :=
  let quarterMonths := quarters quarter
  match filterT (filterCallback quarterMonths) rows with
  | none => none
  | some filteredData =>
    match reduceT groupCallback [] filteredData with
    | none => none
    | some groupedData =>
      match labelsOf groupedData with
      | none => none
      | some labels =>
        match datasetsOf groupedData labels with
        | none => none
        | some datasets => some { labels := labels, datasets := datasets }

/-- The function `updateChartData` (lines 160-206): `none` is an uncaught `TypeError`,
otherwise the one state setter it calls. -/
def updateChartData (data : JsData) (quarter : Quarter) : Option Update :=
  match data with
  | .notArray => some (.setError "Invalid data format received")
  | .array rows =>
    if rows.isEmpty then some (.setError "Invalid data format received")
    else (buildChartData rows quarter).map Update.setChartData

/-! ## The view state (lines 126-158 and 230-274) -/

/-- The four `useState` cells of the component. -/
structure ViewState where
  rawData : Option (List Row)
  chartData : Option ChartData
  error : Option String
  selectedQuarter : Quarter
  deriving DecidableEq

/-- The initial values of the four cells (lines 127-130). -/
def initialState : ViewState :=
  { rawData := none, chartData := none, error := none, selectedQuarter := .Q1 }

/-- The message of line 147. -/
def fetchErrorMessage : String := "Failed to load data. Please try again later."

/-- How the request of line 135 ends: the `fetch` promise rejects, or a response
arrives with its `ok` flag and its body (`none` when `response.json()` rejects). -/
inductive FetchOutcome where
  | rejected
  | response (ok : Bool) (body : Option JsData)
  deriving DecidableEq

/-- Effect of the state setter chosen by `updateChartData`. -/
def applyUpdate (s : ViewState) : Update → ViewState
  | .setError msg => { s with error := some msg }
  | .setChartData cd => { s with chartData := some cd }

/-- The `catch` block of lines 145-148. -/
def catchBlock (s : ViewState) : ViewState :=
  { s with error := some fetchErrorMessage }

/-- The function `fetchData` (lines 133-149).  Its closure belongs to the first
render, so the `selectedQuarter` it passes on is the initial one.  A throw anywhere
in the `try` block, also inside `updateChartData`, lands in the `catch` block. -/
def fetchData (s : ViewState) : FetchOutcome → ViewState
  | .rejected => catchBlock s
  | .response ok body =>
    if !ok then catchBlock s
    else
      match body with
      | none => catchBlock s
      | some .notArray => catchBlock s
      | some (.array rows) =>
        if rows.isEmpty then catchBlock s
        else
          let s1 := { s with rawData := some rows }
          match updateChartData (.array rows) initialState.selectedQuarter with
          | none => catchBlock s1
          | some u => applyUpdate s1 u

/-- Whether `fetchData` reaches `setRawData` (line 143), which stores a fresh array. -/
def storesRawData : FetchOutcome → Bool
  | .response true (some (.array rows)) => !rows.isEmpty
  | _ => false

/-- The effect of lines 154-158, run after a render in which `selectedQuarter` or
`rawData` changed; `none` is a throw out of the effect. -/
def quarterEffect (s : ViewState) : Option ViewState :=
  match s.rawData with
  | none => some s
  | some rows => (updateChartData (.array rows) s.selectedQuarter).map (applyUpdate s)

/-- What happens to the component: the request settles, or a quarter button is
clicked (line 219). -/
inductive Event where
  | fetchSettled (o : FetchOutcome)
  | selectQuarter (q : Quarter)

/-- The settled state after one event.  Setting a cell to its current value causes no
render and no effect. -/
def step (s : ViewState) : Event → Option ViewState
  | .fetchSettled o =>
    if storesRawData o then quarterEffect (fetchData s o) else some (fetchData s o)
  | .selectQuarter q =>
    if q = s.selectedQuarter then some s
    else quarterEffect { s with selectedQuarter := q }

/-- The states the component can be in. -/
inductive Reachable : ViewState → Prop where
  | init : Reachable initialState
  | step {s t : ViewState} (e : Event) : Reachable s → step s e = some t → Reachable t

/-- What lines 230-274 show below the buttons. -/
inductive View where
  | errorText (msg : String)
  | chart (cd : ChartData)
  | loading
  deriving DecidableEq

/-- The conditional of lines 230-274: `error ? ... : chartData ? ... : ...`. -/
def render (s : ViewState) : View :=
  match s.error with
  | some msg =>
    if msg != "" then .errorText msg
    else
      match s.chartData with
      | some cd => .chart cd
      | none => .loading
  | none =>
    match s.chartData with
    | some cd => .chart cd
    | none => .loading

/-! ## Vocabulary of the specification -/

/-- The `Month` of a row when it is a string. -/
def monthOf : Row → Option String
  | .prim _ => none
  | .record fields =>
    match fields.lookup "Month" with
    | some (.str s) => some s
    | _ => none

/-- A row is kept for a quarter when its `Month` is a string whose first
space-delimited token is one of the quarter's three month names. -/
def keptBySpec (quarter : Quarter) (row : Row) : Bool :=
  match monthOf row with
  | some s => (quarters quarter).contains (firstToken s)
  | none => false

/-- The `Month` string of a row (empty when it has none). -/
def monthString (row : Row) : String :=
  (monthOf row).getD ""

/-- The month a row belongs to: the first token of its `Month`. -/
def monthKey (row : Row) : String :=
  firstToken (monthString row)

/-- The field of a record named `key`, `undefined` when absent. -/
def fieldOf (row : Row) (key : String) : JsValue :=
  match row with
  | .prim _ => .undefined
  | .record fields => (fields.lookup key).getD .undefined

/-- The distinct elements of a list in the order of their first occurrence. -/
def firstOccurrences : List String → List String
  | [] => []
  | x :: xs => x :: (firstOccurrences xs).filter (fun y => y != x)

/-- The floor rule `max(value or 0, 0.1)`. -/
def floorValue (v : JsValue) : JsNumber :=
  mathMax (if v.toBoolean then v else .num (.fin 0)) (.num (.fin tenth))

/-- The nine fixed metric labels, in order. -/
def metricLabels : List String :=
  ["Test Cases Authored", "TC Execution", "Pass", "Fail", "Defects Posted", "High",
   "Med", "Low", "Cycles"]

/-- The bucket append the `reduce` callback performs on a well-formed row. -/
def Groups.push : Groups → String → Row → Groups
  | [], key, row => [(key, [row])]
  | (k, b) :: rest, key, row =>
    if k == key then (k, b ++ [row]) :: rest else (k, b) :: Groups.push rest key row

/-- The buckets of a list of rows in closed form: one per month, months in order of
first occurrence, each bucket in the order of the list. -/
def groupsOf (rows : List Row) : Groups :=
  (firstOccurrences (rows.map monthKey)).map
    (fun m => (m, rows.filter (fun r => monthKey r == m)))

/-- The label strings of a list of kept rows in closed form: month after month in
order of first occurrence, inside a month in the order of the list. -/
def labelStrings (ks : List Row) : List String :=
  (firstOccurrences (ks.map monthKey)).flatMap
    (fun m => (ks.filter (fun r => monthKey r == m)).map monthString)

/-- The first row of the list whose `Month` is the given label. -/
def firstWithMonth (ks : List Row) (s : String) : Option Row :=
  ks.find? (fun r => monthString r == s)

/-- The metric field the floor rule is applied to at a label: the field of the first
row with that `Month` (`undefined` if there is no such row). -/
def fieldAt (ks : List Row) (label : String) (s : String) : JsValue :=
  match firstWithMonth ks s with
  | some r => fieldOf r label
  | none => .undefined

/-- The chart of a row array and a quarter in closed form. -/
def chartOf (rows : List Row) (quarter : Quarter) : ChartData :=
  let ks := rows.filter (keptBySpec quarter)
  { labels := (labelStrings ks).map JsValue.str,
    datasets := datasetConfigs.map (fun cfg =>
      { label := cfg.1,
        data := (labelStrings ks).map (fun s => floorValue (fieldAt ks cfg.1 s)),
        backgroundColor := cfg.2 }) }

/-- The `Month` strings, in input order, of the rows whose `Month` is a string with a
first token among the quarter's three month names. -/
def keptMonths (quarter : Quarter) (rows : List Row) : List String :=
  rows.filterMap (fun r =>
    match monthOf r with
    | some s => if (quarters quarter).contains (firstToken s) then some s else none
    | none => none)

/-- The label sequence that follows the quarter's canonical month order: for each of
the quarter's three months in table order, the kept `Month` strings of that month. -/
def canonicalLabels (quarter : Quarter) (rows : List Row) : List String :=
  (quarters quarter).flatMap
    (fun m => (keptMonths quarter rows).filter (fun s => firstToken s == m))

/-- The label sequence that follows the order in which the months first occur among
the kept rows of the input. -/
def firstOccurrenceLabels (quarter : Quarter) (rows : List Row) : List String :=
  (firstOccurrences ((keptMonths quarter rows).map firstToken)).flatMap
    (fun m => (keptMonths quarter rows).filter (fun s => firstToken s == m))

/-- The first token of a string is in none of the four quarters' month lists. -/
def inNoQuarter (s : String) : Bool :=
  !((quarters .Q1).contains (firstToken s) || (quarters .Q2).contains (firstToken s)
    || (quarters .Q3).contains (firstToken s) || (quarters .Q4).contains (firstToken s))

/-- A sheet row with a `Month` and one numeric metric. -/
def sheetRow (month metric : String) (value : ℚ) : Row :=
  .record [("Month", .str month), (metric, .num (.fin value))]

/-- A chart without labels: nine empty series. -/
def emptyChart : ChartData :=
  { labels := [],
    datasets := datasetConfigs.map (fun cfg =>
      { label := cfg.1, data := [], backgroundColor := cfg.2 }) }

/-- Scenario 2: one row of a month that no quarter lists. -/
def aprilRows : List Row := [sheetRow "Apr Week 1" "Pass" 3]

/-- Two Q1 rows whose months come in the order February, January. -/
def febThenJanRows : List Row :=
  [sheetRow "Feb Week 1" "Pass" 2, sheetRow "Jan Week 1" "Pass" 1]

/-- Three Q1 rows with the months interleaved and the weeks of January unsorted. -/
def interleavedRows : List Row :=
  [sheetRow "Jan Week 2" "Pass" 4, sheetRow "Feb Week 1" "Pass" 2,
   sheetRow "Jan Week 1" "Pass" 1]

/-- Scenario 1: one January row with `Pass: 5`. -/
def januaryRows : List Row := [sheetRow "Jan Week 1" "Pass" 5]

/-- Scenario 3: one February row with `Pass: 0`. -/
def februaryZeroRows : List Row := [sheetRow "Feb Week 2" "Pass" 0]

/-- One January row whose `Pass` cell holds the text `N/A`. -/
def notAvailableRows : List Row :=
  [.record [("Month", .str "Jan Week 1"), ("Pass", .str "N/A")]]

/-- A metric field that is a number or absent. -/
def JsValue.isNumberOrAbsent : JsValue → Bool
  | .undefined => true
  | .num _ => true
  | _ => false

/-- A metric field that is a number or a string (or absent): the scalar kinds of the
data model. -/
def JsValue.isNumberOrString : JsValue → Bool
  | .undefined => true
  | .num _ => true
  | .str _ => true
  | _ => false

/-- A metric field that is a number, or a string that `ToNumber` converts to a number
(or absent). -/
def JsValue.isNumeric : JsValue → Bool
  | .undefined => true
  | .num _ => true
  | .str s => stringToNumber s != .nan
  | _ => false

/-- The series of a chart with the given metric label. -/
def ChartData.series (cd : ChartData) (label : String) : Option (List JsNumber) :=
  (cd.datasets.find? (fun ds => ds.label == label)).map (fun ds => ds.data)

/-- One January row whose `Pass` cell holds the text `5`. -/
def numericStringRows : List Row :=
  [.record [("Month", .str "Jan Week 1"), ("Pass", .str "5")]]

/-- A malformed row: `null`, `undefined` or another element that is not an object, or
an object whose `Month` is absent or not a string. -/
def malformedRow : Row → Bool
  | .prim _ => true
  | .record fields =>
    match fields.lookup "Month" with
    | some (.str _) => false
    | _ => true

/-- A January row between a `null`, a row without `Month` and a row whose `Month` is a
number. -/
def mixedRows : List Row :=
  [.prim .null, sheetRow "Jan Week 1" "Pass" 5, .record [("Pass", .num (.fin 2))],
   .record [("Month", .num (.fin 3)), ("Pass", .num (.fin 4))], .prim .undefined]

/-- The state while the request is pending: nothing loaded, no error, any quarter
selected.  The initial state is `pendingState .Q1`. -/
def pendingState (q : Quarter) : ViewState :=
  { rawData := none, chartData := none, error := none, selectedQuarter := q }

/-- The failing fetch outcomes: a rejected request, a non-OK status, a body that is not
JSON, a payload that is not an array, an empty array. -/
def fetchFailed : FetchOutcome → Bool
  | .rejected => true
  | .response false _ => true
  | .response true none => true
  | .response true (some .notArray) => true
  | .response true (some (.array rows)) => rows.isEmpty

/-- The state after the payload `[{Month: "Jan Week 1", Pass: 5}]` has been loaded with
Q1 selected. -/
def januaryLoadedState : ViewState :=
  { rawData := some januaryRows, chartData := some (chartOf januaryRows .Q1),
    error := none, selectedQuarter := .Q1 }

/-! ## Basic facts -/

theorem tenth_eq : tenth = 1 / 10 := by
  rw [tenth, Rat.mk'_eq_divInt, Rat.divInt_eq_div]; norm_num

theorem filterT_eq_filter {α : Type} (p : α → Option Bool) (p' : α → Bool)
    (h : ∀ x, p x = some (p' x)) (xs : List α) : filterT p xs = some (xs.filter p') := by
  induction xs with
  | nil => rfl
  | cons x xs ih =>
    simp only [filterT, h, ih, List.filter_cons]

theorem mapT_eq_map {α β : Type} (f : α → Option β) (f' : α → β) (xs : List α)
    (h : ∀ x ∈ xs, f x = some (f' x)) : mapT f xs = some (xs.map f') := by
  induction xs with
  | nil => rfl
  | cons x xs ih =>
    have hx := h x (List.mem_cons_self x xs)
    have hxs := ih (fun y hy => h y (List.mem_cons_of_mem x hy))
    simp only [mapT, hx, hxs, List.map_cons]

theorem filterCallback_eq (q : Quarter) (row : Row) :
    filterCallback (quarters q) row = some (keptBySpec q row) := by
  unfold filterCallback keptBySpec monthOf
  cases row with
  | prim v => cases v <;> simp [Row.toBoolean, JsValue.toBoolean, Row.get]
  | record fields =>
    simp only [Row.toBoolean, Row.get]
    cases h : fields.lookup "Month" with
    | none => simp
    | some v => cases v <;> simp

/-- A row with a string `Month` is an object, hence truthy, and reads back its month. -/
theorem get_month_of_monthOf {row : Row} {s : String} (h : monthOf row = some s) :
    row.toBoolean = true ∧ row.get "Month" = some (.str s) := by
  cases row with
  | prim v => simp [monthOf] at h
  | record fields =>
    refine ⟨rfl, ?_⟩
    simp only [monthOf] at h
    simp only [Row.get]
    cases h2 : fields.lookup "Month" with
    | none => simp [h2] at h
    | some v =>
      cases v <;> simp [h2] at h
      simp [h]

theorem monthOf_of_kept {q : Quarter} {row : Row} (h : keptBySpec q row = true) :
    monthOf row = some (monthString row) := by
  unfold keptBySpec at h
  unfold monthString
  cases h2 : monthOf row with
  | none => simp [h2] at h
  | some s => simp

/-! ## Buckets -/

theorem Groups.get_set_self (g : Groups) (k : String) (b : List Row) :
    (g.set k b).get k = some b := by
  induction g with
  | nil => simp [Groups.set, Groups.get, List.lookup]
  | cons p g ih =>
    obtain ⟨k1, b1⟩ := p
    unfold Groups.get at ih ⊢
    by_cases hk : k1 = k
    · subst hk; simp [Groups.set, List.lookup]
    · have hb : (k == k1) = false := by simpa using fun h => hk h.symm
      simp [Groups.set, List.lookup, hk, hb, ih]

theorem Groups.set_set (g : Groups) (k : String) (b c : List Row) :
    (g.set k b).set k c = g.set k c := by
  induction g with
  | nil => simp [Groups.set]
  | cons p g ih =>
    obtain ⟨k1, b1⟩ := p
    by_cases hk : k1 = k
    · subst hk; simp [Groups.set]
    · simp [Groups.set, hk, ih]

theorem Groups.push_eq_set (g : Groups) (k : String) (row : Row) :
    g.push k row = g.set k ((g.get k).getD [] ++ [row]) := by
  induction g with
  | nil => simp [Groups.set, Groups.get, Groups.push, List.lookup]
  | cons p g ih =>
    obtain ⟨k1, b1⟩ := p
    unfold Groups.get at ih ⊢
    by_cases hk : k1 = k
    · subst hk; simp [Groups.set, Groups.push, List.lookup]
    · have hb : (k == k1) = false := by simpa using fun h => hk h.symm
      simp [Groups.set, Groups.push, List.lookup, hk, hb, ih]

theorem groupCallback_eq (acc : Groups) (row : Row) (s : String)
    (h : monthOf row = some s) :
    groupCallback acc row = some (acc.push (firstToken s) row) := by
  obtain ⟨h1, h2⟩ := get_month_of_monthOf h
  unfold groupCallback
  simp only [h1, h2, Bool.not_true, Bool.false_eq_true, if_false]
  rw [Groups.push_eq_set]
  cases hg : acc.get (firstToken s) with
  | none => simp [Groups.get_set_self, Groups.set_set]
  | some b => simp [hg]

theorem reduceT_groupCallback (rows : List Row) (acc : Groups)
    (h : ∀ r ∈ rows, monthOf r = some (monthString r)) :
    reduceT groupCallback acc rows
      = some (rows.foldl (fun g r => g.push (monthKey r) r) acc) := by
  induction rows generalizing acc with
  | nil => rfl
  | cons r rows ih =>
    have hr := h r (List.mem_cons_self r rows)
    simp only [reduceT, groupCallback_eq acc r _ hr, List.foldl_cons]
    exact ih _ (fun y hy => h y (List.mem_cons_of_mem r hy))

/-! ## First occurrences -/

theorem mem_firstOccurrences (l : List String) (x : String) :
    x ∈ firstOccurrences l ↔ x ∈ l := by
  induction l with
  | nil => simp [firstOccurrences]
  | cons a l ih =>
    simp only [firstOccurrences, List.mem_cons, List.mem_filter, ih]
    by_cases hx : x = a <;> simp [hx]

theorem nodup_firstOccurrences (l : List String) : (firstOccurrences l).Nodup := by
  induction l with
  | nil => simp [firstOccurrences]
  | cons a l ih =>
    simp only [firstOccurrences, List.nodup_cons, List.mem_filter]
    exact ⟨by simp, ih.filter _⟩

theorem firstOccurrences_append_singleton (l : List String) (x : String) :
    firstOccurrences (l ++ [x])
      = if x ∈ l then firstOccurrences l else firstOccurrences l ++ [x] := by
  induction l with
  | nil => simp [firstOccurrences]
  | cons a l ih =>
    rw [List.cons_append, firstOccurrences, ih]
    simp only [firstOccurrences]
    by_cases hxa : x = a
    · subst hxa
      by_cases hxl : x ∈ l <;> simp [hxl, List.filter_append]
    · have hax : ¬ a = x := fun h => hxa h.symm
      by_cases hxl : x ∈ l <;> simp [hxl, hxa, hax, List.filter_append]

/-! ## The buckets in closed form -/

theorem Groups.push_map (F : List String) (B : String → List Row) (k : String) (r : Row)
    (hF : F.Nodup) :
    Groups.push (F.map (fun m => (m, B m))) k r
      = if k ∈ F then F.map (fun m => (m, if m == k then B m ++ [r] else B m))
        else F.map (fun m => (m, B m)) ++ [(k, [r])] := by
  induction F with
  | nil => simp [Groups.push]
  | cons a F ih =>
    have ha : a ∉ F := (List.nodup_cons.mp hF).1
    have ih2 := ih (List.nodup_cons.mp hF).2
    by_cases hak : a = k
    · subst hak
      simp only [List.map_cons, Groups.push, beq_self_eq_true, if_true, List.mem_cons,
        true_or]
      congr 1
      apply List.map_congr_left
      intro m hm
      have : (m == a) = false := by
        simpa using fun h : m = a => ha (h ▸ hm)
      simp [this]
    · have hb : (a == k) = false := by simpa using hak
      have hka : ¬ k = a := fun h => hak h.symm
      simp only [List.map_cons, Groups.push, hb, Bool.false_eq_true, if_false, ih2,
        List.mem_cons, hka, false_or]
      by_cases hkF : k ∈ F <;> simp [hkF]

theorem groupsOf_append_singleton (ks : List Row) (r : Row) :
    groupsOf (ks ++ [r]) = (groupsOf ks).push (monthKey r) r := by
  unfold groupsOf
  rw [Groups.push_map _ _ _ _ (nodup_firstOccurrences _), List.map_append,
    List.map_singleton, firstOccurrences_append_singleton]
  simp only [mem_firstOccurrences]
  by_cases hk : monthKey r ∈ ks.map monthKey
  · simp only [hk, if_true]
    apply List.map_congr_left
    intro m _
    by_cases hm : m = monthKey r
    · subst hm; simp [List.filter_append]
    · have h1 : (m == monthKey r) = false := by simpa using hm
      have h2 : (monthKey r == m) = false := by simpa using fun h => hm h.symm
      simp [List.filter_append, h1, h2]
  · simp only [hk, if_false, List.map_append, List.map_singleton]
    congr 1
    · apply List.map_congr_left
      intro m hm
      have hm2 : m ∈ ks.map monthKey := (mem_firstOccurrences _ _).mp hm
      have h2 : (monthKey r == m) = false := by
        simpa using fun h : monthKey r = m => hk (h ▸ hm2)
      simp [List.filter_append, h2]
    · have : ks.filter (fun x => monthKey x == monthKey r) = [] := by
        rw [List.filter_eq_nil_iff]
        intro x hx hxe
        exact hk (List.mem_map.mpr ⟨x, hx, by simpa using hxe⟩)
      simp [List.filter_append, this]

theorem foldl_push_eq_groupsOf (ks : List Row) :
    ks.foldl (fun (g : Groups) r => g.push (monthKey r) r) [] = groupsOf ks := by
  induction ks using List.reverseRecOn with
  | nil => rfl
  | append_singleton l a ih =>
    rw [List.foldl_append, List.foldl_cons, List.foldl_nil, ih, groupsOf_append_singleton]

theorem get_map_key (F : List String) (B : String → List Row) (m : String) :
    Groups.get (F.map (fun k => (k, B k))) m = if m ∈ F then some (B m) else none := by
  unfold Groups.get
  induction F with
  | nil => simp [List.lookup]
  | cons a F ih =>
    by_cases hma : m = a
    · subst hma; simp [List.lookup]
    · have hb : (m == a) = false := by simpa using hma
      simp [List.lookup, hb, ih, hma]

theorem get_groupsOf (ks : List Row) (r : Row) (hr : r ∈ ks) :
    (groupsOf ks).get (monthKey r) = some (ks.filter (fun x => monthKey x == monthKey r)) := by
  unfold groupsOf
  rw [get_map_key, if_pos]
  exact (mem_firstOccurrences _ _).mpr (List.mem_map_of_mem _ hr)

theorem findT_eq_find {α : Type} (p : α → Option Bool) (p' : α → Bool) (xs : List α)
    (h : ∀ x ∈ xs, p x = some (p' x)) : findT p xs = some (xs.find? p') := by
  induction xs with
  | nil => rfl
  | cons x xs ih =>
    have hx := h x (List.mem_cons_self x xs)
    have hxs := ih (fun y hy => h y (List.mem_cons_of_mem x hy))
    cases hp : p' x <;> simp [findT, hx, hp, hxs, List.find?_cons]

/-! ## Labels and series in closed form -/

theorem mapT_month (b : List Row) (h : ∀ r ∈ b, monthOf r = some (monthString r)) :
    mapT (fun row => row.get "Month") b = some (b.map (fun r => JsValue.str (monthString r))) :=
  mapT_eq_map _ _ _ (fun r hr => (get_month_of_monthOf (h r hr)).2)

theorem labelsOf_groupsOf (ks : List Row)
    (h : ∀ r ∈ ks, monthOf r = some (monthString r)) :
    labelsOf (groupsOf ks) = some ((labelStrings ks).map JsValue.str) := by
  unfold labelsOf
  have hkeys : (groupsOf ks).map Prod.fst = firstOccurrences (ks.map monthKey) := by
    unfold groupsOf
    rw [List.map_map]
    exact List.map_id _
  rw [hkeys]
  rw [mapT_eq_map _ (fun m => (ks.filter (fun r => monthKey r == m)).map
      (fun r => JsValue.str (monthString r)))]
  · simp [labelStrings, List.map_flatMap, List.flatMap, List.map_map, Function.comp_def]
  · intro m hm
    unfold groupsOf
    rw [get_map_key, if_pos hm]
    exact mapT_month _ (fun r hr => h r (List.mem_of_mem_filter hr))

theorem mem_labelStrings (ks : List Row) (s : String) :
    s ∈ labelStrings ks ↔ ∃ r ∈ ks, monthString r = s := by
  unfold labelStrings
  simp only [List.mem_flatMap, mem_firstOccurrences, List.mem_map, List.mem_filter,
    beq_iff_eq]
  constructor
  · rintro ⟨m, _, r, ⟨hr, _⟩, hs⟩
    exact ⟨r, hr, hs⟩
  · rintro ⟨r, hr, hs⟩
    exact ⟨monthKey r, ⟨r, hr, rfl⟩, r, ⟨hr, rfl⟩, hs⟩

theorem get_fieldOf {r : Row} {s : String} (h : monthOf r = some s) (label : String) :
    r.get label = some (fieldOf r label) := by
  cases r with
  | prim v => simp [monthOf] at h
  | record fields => rfl

/-- The lookups of lines 198-199 at a label: the bucket exists and `find` returns the
first kept row with that `Month`. -/
theorem lookups_groupsOf (ks : List Row) (h : ∀ r ∈ ks, monthOf r = some (monthString r))
    (s : String) (hs : s ∈ labelStrings ks) :
    ∃ r, r ∈ ks ∧ monthString r = s ∧ firstWithMonth ks s = some r
      ∧ (groupsOf ks).get (firstToken s)
          = some (ks.filter (fun x => monthKey x == firstToken s))
      ∧ findT (fun row => (row.get "Month").map (fun m => m.strictEq (.str s)))
          (ks.filter (fun x => monthKey x == firstToken s)) = some (some r) := by
  obtain ⟨r0, hr0, hs0⟩ := (mem_labelStrings ks s).mp hs
  have hfind : ∃ r, firstWithMonth ks s = some r := by
    unfold firstWithMonth
    cases hf : ks.find? (fun r => monthString r == s) with
    | some r => exact ⟨r, rfl⟩
    | none =>
      rw [List.find?_eq_none] at hf
      exact absurd (by simpa using hs0) (hf r0 hr0)
  obtain ⟨r, hr⟩ := hfind
  have hrs : monthString r = s := by
    have := List.find?_some hr
    simpa using this
  have hrk : r ∈ ks := List.mem_of_find?_eq_some hr
  have hkey : monthKey r = firstToken s := by unfold monthKey; rw [hrs]
  refine ⟨r, hrk, hrs, hr, ?_, ?_⟩
  · rw [← hkey]; exact get_groupsOf ks r hrk
  · rw [findT_eq_find _ (fun x => monthString x == s)]
    · rw [List.find?_filter]
      have : (fun a => decide ((monthKey a == firstToken s) = true
            ∧ (monthString a == s) = true)) = (fun a => monthString a == s) := by
        funext a
        by_cases ha : monthString a = s
        · simp [ha, monthKey]
        · have : (monthString a == s) = false := by simpa using ha
          simp [this]
      rw [this]
      exact congrArg some hr
    · intro x hx
      have hm := (get_month_of_monthOf (h x (List.mem_of_mem_filter hx))).2
      simp [hm, JsValue.strictEq]

theorem seriesValue_groupsOf (ks : List Row)
    (h : ∀ r ∈ ks, monthOf r = some (monthString r)) (label s : String)
    (hs : s ∈ labelStrings ks) :
    seriesValue (groupsOf ks) label (.str s) = some (floorValue (fieldAt ks label s)) := by
  obtain ⟨r, hrk, _, hfirst, hget, hfind⟩ := lookups_groupsOf ks h s hs
  have htb := (get_month_of_monthOf (h r hrk)).1
  simp only [seriesValue, hget, hfind, metricOperand, htb, Bool.not_true,
    Bool.false_eq_true, if_false, get_fieldOf (h r hrk) label, fieldAt, hfirst, floorValue]

theorem datasetsOf_groupsOf (ks : List Row)
    (h : ∀ r ∈ ks, monthOf r = some (monthString r)) :
    datasetsOf (groupsOf ks) ((labelStrings ks).map JsValue.str)
      = some (datasetConfigs.map (fun cfg =>
          { label := cfg.1,
            data := (labelStrings ks).map (fun s => floorValue (fieldAt ks cfg.1 s)),
            backgroundColor := cfg.2 })) := by
  unfold datasetsOf
  apply mapT_eq_map
  intro cfg _
  rw [mapT_eq_map _ (fun v => match v with
      | .str s => floorValue (fieldAt ks cfg.1 s)
      | _ => .nan)]
  · simp [List.map_map, Function.comp_def]
  · intro v hv
    obtain ⟨s, hs, rfl⟩ := List.mem_map.mp hv
    exact seriesValue_groupsOf ks h cfg.1 s hs

/-- Lines 167-205 never throw and compute the closed-form chart. -/
theorem buildChartData_eq (rows : List Row) (q : Quarter) :
    buildChartData rows q = some (chartOf rows q) := by
  have hk : ∀ r ∈ rows.filter (keptBySpec q), monthOf r = some (monthString r) :=
    fun r hr => monthOf_of_kept (List.mem_filter.mp hr).2
  unfold buildChartData
  simp only [filterT_eq_filter _ _ (filterCallback_eq q), reduceT_groupCallback _ _ hk,
    foldl_push_eq_groupsOf, labelsOf_groupsOf _ hk, datasetsOf_groupsOf _ hk, chartOf]

/-! ## The kept rows and their months -/

theorem keptMonths_eq (q : Quarter) (rows : List Row) :
    (rows.filter (keptBySpec q)).map monthString = keptMonths q rows := by
  unfold keptMonths
  induction rows with
  | nil => rfl
  | cons r rows ih =>
    cases hm : monthOf r with
    | none => simp [List.filter_cons, List.filterMap_cons, keptBySpec, hm, ih]
    | some s =>
      by_cases hc : firstToken s ∈ quarters q
      · simp [List.filter_cons, List.filterMap_cons, keptBySpec, hm, hc, monthString]
        simpa [monthString] using ih
      · simp [List.filter_cons, List.filterMap_cons, keptBySpec, hm, hc]
        simpa using ih

theorem filter_monthKey_map (ks : List Row) (m : String) :
    (ks.filter (fun r => monthKey r == m)).map monthString
      = (ks.map monthString).filter (fun s => firstToken s == m) := by
  rw [List.filter_map]
  rfl

theorem labelStrings_eq (q : Quarter) (rows : List Row) :
    labelStrings (rows.filter (keptBySpec q)) = firstOccurrenceLabels q rows := by
  unfold labelStrings firstOccurrenceLabels
  rw [← keptMonths_eq, List.map_map]
  simp only [filter_monthKey_map]
  rfl

/-- The outcome of `updateChartData` on a non-empty array. -/
theorem updateChartData_eq (rows : List Row) (q : Quarter) (h : rows ≠ []) :
    updateChartData (.array rows) q = some (.setChartData (chartOf rows q)) := by
  cases rows with
  | nil => exact absurd rfl h
  | cons r rows => simp [updateChartData, buildChartData_eq]

theorem chartOf_labels (rows : List Row) (q : Quarter) :
    (chartOf rows q).labels = (firstOccurrenceLabels q rows).map JsValue.str := by
  simp [chartOf, labelStrings_eq]

/-! ## Concatenating the blocks of a partition -/

theorem flatMap_filter_perm {α : Type} (key : α → String) (ks : List α) (F : List String)
    (hF : F.Nodup) :
    List.Perm (F.flatMap (fun m => ks.filter (fun r => key r == m)))
      (ks.filter (fun r => decide (key r ∈ F))) := by
  induction F with
  | nil => simp
  | cons a F ih =>
    have ha : a ∉ F := (List.nodup_cons.mp hF).1
    have ih2 := ih (List.nodup_cons.mp hF).2
    rw [List.flatMap_cons]
    have h1 : ks.filter (fun r => key r == a)
        = (ks.filter (fun r => decide (key r ∈ a :: F))).filter (fun r => key r == a) := by
      rw [List.filter_filter]
      apply List.filter_congr
      intro x _
      by_cases hx : key x = a <;> simp [hx]
    have h2 : ks.filter (fun r => decide (key r ∈ F))
        = (ks.filter (fun r => decide (key r ∈ a :: F))).filter (fun r => !(key r == a)) := by
      rw [List.filter_filter]
      apply List.filter_congr
      intro x _
      by_cases hx : key x = a
      · simp [hx, ha]
      · simp [hx]
    refine (List.Perm.append_left _ ih2).trans ?_
    rw [h1, h2]
    exact List.filter_append_perm _ _

theorem flatMap_single {β : Type} (F : List String) (g : String → List β) (m : String)
    (hF : F.Nodup) (hg : ∀ x ∈ F, x ≠ m → g x = []) :
    F.flatMap g = if m ∈ F then g m else [] := by
  induction F with
  | nil => simp
  | cons a F ih =>
    have ha : a ∉ F := (List.nodup_cons.mp hF).1
    have ih2 := ih (List.nodup_cons.mp hF).2 (fun x hx => hg x (List.mem_cons_of_mem a hx))
    rw [List.flatMap_cons, ih2]
    by_cases ham : a = m
    · subst ham; simp [ha]
    · have hma : ¬ m = a := fun h => ham h.symm
      simp [hg a (List.mem_cons_self a F) ham, hma]

theorem contiguous_blocks (f : String → String) (g : String → List String)
    (hg : ∀ m, ∀ s ∈ g m, f s = m) (F : List String) (hF : F.Nodup) :
    ∀ (i j k : Nat) (x y z : String), i < j → j < k →
      (F.flatMap g)[i]? = some x → (F.flatMap g)[j]? = some y →
      (F.flatMap g)[k]? = some z → f x = f z → f y = f x := by
  induction F with
  | nil => intro i j k x y z _ _ hx; simp at hx
  | cons a F ih =>
    have ha : a ∉ F := (List.nodup_cons.mp hF).1
    have ih2 := ih (List.nodup_cons.mp hF).2
    have hrest : ∀ s ∈ F.flatMap g, f s ≠ a := by
      intro s hs hfs
      obtain ⟨m, hm, hsm⟩ := List.mem_flatMap.mp hs
      exact ha (by rw [← hfs, hg m s hsm]; exact hm)
    intro i j k x y z hij hjk hx hy hz hxz
    rw [List.flatMap_cons] at hx hy hz
    by_cases hk : k < (g a).length
    · rw [List.getElem?_append_left (by omega)] at hx hy
      rw [hg a x (List.getElem?_mem hx), hg a y (List.getElem?_mem hy)]
    · rw [List.getElem?_append_right (by omega)] at hz
      by_cases hi : i < (g a).length
      · rw [List.getElem?_append_left hi] at hx
        exact absurd (hxz ▸ hg a x (List.getElem?_mem hx)).symm
          (fun h => hrest z (List.getElem?_mem hz) h.symm)
      · rw [List.getElem?_append_right (by omega)] at hx hy
        exact ih2 (i - (g a).length) (j - (g a).length) (k - (g a).length) x y z
          (by omega) (by omega) hx hy hz hxz

/-! ## Facts about the closed-form labels -/

theorem keptMonths_token_mem (q : Quarter) (rows : List Row) (s : String)
    (hs : s ∈ keptMonths q rows) : firstToken s ∈ quarters q := by
  unfold keptMonths at hs
  obtain ⟨r, _, hr⟩ := List.mem_filterMap.mp hs
  cases hm : monthOf r with
  | none => simp [hm] at hr
  | some t =>
    by_cases hc : firstToken t ∈ quarters q
    · simp [hm, hc] at hr; exact hr ▸ hc
    · simp [hm, hc] at hr

theorem firstOccurrenceLabels_perm (q : Quarter) (rows : List Row) :
    List.Perm (firstOccurrenceLabels q rows) (keptMonths q rows) := by
  unfold firstOccurrenceLabels
  have hp := flatMap_filter_perm firstToken (keptMonths q rows)
    (firstOccurrences ((keptMonths q rows).map firstToken)) (nodup_firstOccurrences _)
  have hall : (keptMonths q rows).filter (fun r => decide (firstToken r ∈
      firstOccurrences ((keptMonths q rows).map firstToken))) = keptMonths q rows := by
    rw [List.filter_eq_self]
    intro s hs
    simpa [mem_firstOccurrences] using ⟨s, hs, rfl⟩
  rw [hall] at hp
  exact hp

theorem firstOccurrenceLabels_filter (q : Quarter) (rows : List Row) (m : String) :
    (firstOccurrenceLabels q rows).filter (fun s => firstToken s == m)
      = (keptMonths q rows).filter (fun s => firstToken s == m) := by
  unfold firstOccurrenceLabels
  rw [List.filter_flatMap, flatMap_single _ _ m (nodup_firstOccurrences _)]
  · by_cases hm : m ∈ firstOccurrences ((keptMonths q rows).map firstToken)
    · rw [if_pos hm, List.filter_filter]
      simp
    · rw [if_neg hm]
      symm
      rw [List.filter_eq_nil_iff]
      intro s hs hsm
      exact hm ((mem_firstOccurrences _ _).mpr (List.mem_map.mpr ⟨s, hs, by simpa using hsm⟩))
  · intro x _ hxm
    rw [List.filter_filter, List.filter_eq_nil_iff]
    intro s _ hsx
    simp only [Bool.and_eq_true, beq_iff_eq] at hsx
    exact hxm (hsx.2.symm.trans hsx.1)

theorem chartOf_of_no_labels (rows : List Row) (q : Quarter)
    (h : keptMonths q rows = []) : chartOf rows q = emptyChart := by
  have h1 : labelStrings (rows.filter (keptBySpec q)) = [] := by
    rw [labelStrings_eq]
    have := firstOccurrenceLabels_perm q rows
    rw [h] at this
    exact List.Perm.eq_nil this
  simp [chartOf, h1, emptyChart]

theorem not_inNoQuarter_of_mem (q : Quarter) (s : String) (h : firstToken s ∈ quarters q) :
    inNoQuarter s = false := by
  unfold inNoQuarter
  cases q <;> simp [List.contains_eq_any_beq] at h ⊢ <;> simp_all

theorem flatMap_sublist_of_nil {β : Type} (g : String → List β) (F L : List String)
    (hsub : List.Sublist F L) (hL : L.Nodup) (hg : ∀ m ∈ L, m ∉ F → g m = []) :
    L.flatMap g = F.flatMap g := by
  induction hsub with
  | slnil => rfl
  | @cons F1 L1 a hs ih =>
    have ha : a ∉ L1 := (List.nodup_cons.mp hL).1
    have haF : a ∉ F1 := fun h => ha (hs.subset h)
    rw [List.flatMap_cons, hg a (List.mem_cons_self a L1) haF, List.nil_append]
    exact ih (List.nodup_cons.mp hL).2 (fun m hm => hg m (List.mem_cons_of_mem a hm))
  | @cons₂ F1 L1 a hs ih =>
    have ha : a ∉ L1 := (List.nodup_cons.mp hL).1
    rw [List.flatMap_cons, List.flatMap_cons]
    congr 1
    refine ih (List.nodup_cons.mp hL).2 (fun m hm hmF => hg m (List.mem_cons_of_mem a hm) ?_)
    intro hmem
    rcases List.mem_cons.mp hmem with h | h
    · exact ha (h ▸ hm)
    · exact hmF h

theorem nodup_quarters (q : Quarter) : (quarters q).Nodup := by
  cases q <;> decide

/-! ## The floor rule -/

theorem floorValue_fin (x : ℚ) : floorValue (.num (.fin x)) = .fin (max x (1 / 10)) := by
  rw [← tenth_eq]
  by_cases hx : x = 0
  · subst hx
    simp [floorValue, JsValue.toBoolean, mathMax, JsValue.toNumber, JsNumber.max]
  · simp [floorValue, JsValue.toBoolean, mathMax, JsValue.toNumber, JsNumber.max, hx]

theorem floorValue_undefined : floorValue .undefined = .fin (1 / 10) := by
  rw [← tenth_eq]
  have : max (0 : ℚ) tenth = tenth := by decide
  simp [floorValue, JsValue.toBoolean, mathMax, JsValue.toNumber, JsNumber.max, this]

theorem floorValue_le_of_fin (x : ℚ) (hx : x ≤ 1 / 10) :
    floorValue (.num (.fin x)) = .fin (1 / 10) := by
  rw [floorValue_fin, max_eq_right hx]

theorem tenth_le_floorValue_num (n : JsNumber) :
    JsNumber.le (.fin (1 / 10)) (floorValue (.num n)) = true := by
  cases n with
  | fin x => rw [floorValue_fin]; simp [JsNumber.le]
  | nan =>
    rw [← tenth_eq]
    simp [floorValue, JsValue.toBoolean, mathMax, JsValue.toNumber, JsNumber.max, JsNumber.le]
  | posInf =>
    simp [floorValue, JsValue.toBoolean, mathMax, JsValue.toNumber, JsNumber.max, JsNumber.le]
  | negInf =>
    rw [← tenth_eq]
    simp [floorValue, JsValue.toBoolean, mathMax, JsValue.toNumber, JsNumber.max, JsNumber.le]

theorem tenth_le_floorValue_undefined :
    JsNumber.le (.fin (1 / 10)) (floorValue .undefined) = true := by
  rw [floorValue_undefined]; simp [JsNumber.le]

theorem tenth_le_floorValue_str (s : String) (h : stringToNumber s ≠ .nan) :
    JsNumber.le (.fin (1 / 10)) (floorValue (.str s)) = true := by
  rw [← tenth_eq]
  by_cases hs : s = ""
  · subst hs
    simp [floorValue, JsValue.toBoolean, mathMax, JsValue.toNumber, JsNumber.max, JsNumber.le]
  · simp only [floorValue, JsValue.toBoolean, bne_iff_ne, ne_eq, hs, not_false_eq_true,
      decide_True, if_true, mathMax, JsValue.toNumber]
    cases hn : stringToNumber s with
    | fin x => simp [JsNumber.max, JsNumber.le]
    | nan => exact absurd hn h
    | posInf => simp [JsNumber.max, JsNumber.le]
    | negInf => simp [JsNumber.max, JsNumber.le]

theorem floorValue_str_nan (s : String) (hs : s ≠ "") (h : stringToNumber s = .nan) :
    floorValue (.str s) = .nan := by
  simp [floorValue, JsValue.toBoolean, hs, mathMax, JsValue.toNumber, h, JsNumber.max]

theorem le_zero_of_tenth_le (v : JsNumber) (h : JsNumber.le (.fin (1 / 10)) v = true) :
    JsNumber.le (.fin 0) v = true ∧ JsNumber.le v (.fin 0) = false := by
  cases v with
  | fin x =>
    simp only [JsNumber.le, decide_eq_true_eq, decide_eq_false_iff_not, not_le] at h ⊢
    constructor <;> linarith
  | nan => simp [JsNumber.le] at h
  | posInf => simp [JsNumber.le]
  | negInf => simp [JsNumber.le] at h

/-! ## The claims -/

/-- C1: for a non-empty row array and any quarter, `updateChartData` sets a chart whose
label sequence is a permutation of the `Month` strings of exactly the rows whose `Month`
is a string with a first token among the quarter's three month names; every series is as
long as the label sequence; a `Month` whose first token is in no quarter's list is never
a label; and an input made of such rows alone gives no labels and nine empty series. -/
theorem labels_perm_keptMonths (rows : List Row) (q : Quarter) (h : rows ≠ []) :
    ∃ cd, updateChartData (.array rows) q = some (.setChartData cd)
      ∧ List.Perm cd.labels ((keptMonths q rows).map JsValue.str)
      ∧ (∀ ds ∈ cd.datasets, ds.data.length = cd.labels.length)
      ∧ (∀ s, inNoQuarter s = true → JsValue.str s ∉ cd.labels)
      ∧ ((∀ r ∈ rows, ∀ s, monthOf r = some s → inNoQuarter s = true) →
          cd = emptyChart ∧ cd.labels = [] ∧ cd.datasets.length = 9
            ∧ ∀ ds ∈ cd.datasets, ds.data = []) := by
  refine ⟨chartOf rows q, updateChartData_eq rows q h, ?_, ?_, ?_, ?_⟩
  · rw [chartOf_labels]
    exact (firstOccurrenceLabels_perm q rows).map _
  · intro ds hds
    simp only [chartOf, List.mem_map] at hds
    obtain ⟨cfg, _, rfl⟩ := hds
    simp [chartOf]
  · intro s hs hmem
    rw [chartOf_labels] at hmem
    obtain ⟨t, ht, hts⟩ := List.mem_map.mp hmem
    have hts2 : t = s := by simpa using hts
    subst hts2
    have h1 := keptMonths_token_mem q rows t
      ((firstOccurrenceLabels_perm q rows).mem_iff.mp ht)
    rw [not_inNoQuarter_of_mem q t h1] at hs
    exact absurd hs (by simp)
  · intro hall
    have hk : keptMonths q rows = [] := by
      rw [List.eq_nil_iff_forall_not_mem]
      intro s hs
      have h1 := not_inNoQuarter_of_mem q s (keptMonths_token_mem q rows s hs)
      unfold keptMonths at hs
      obtain ⟨r, hr, hrs⟩ := List.mem_filterMap.mp hs
      cases hm : monthOf r with
      | none => simp [hm] at hrs
      | some t =>
        have h2 := hall r hr t hm
        by_cases hc : firstToken t ∈ quarters q
        · simp [hm, hc] at hrs
          rw [hrs, h1] at h2
          exact absurd h2 (by simp)
        · simp [hm, hc] at hrs
    rw [chartOf_of_no_labels rows q hk]
    refine ⟨rfl, rfl, by decide, ?_⟩
    intro ds hds
    simp only [emptyChart, List.mem_map] at hds
    obtain ⟨cfg, _, rfl⟩ := hds
    rfl

/-- Scenario 2 (C1 at a concrete input): `[{Month: "Apr Week 1", Pass: 3}]` under Q1
gives the chart without labels and with nine empty series. -/
theorem labels_perm_keptMonths_witness :
    aprilRows ≠ [] ∧ updateChartData (.array aprilRows) .Q1 = some (.setChartData emptyChart) := by
  obtain ⟨cd, h1, _, _, _, h5⟩ := labels_perm_keptMonths aprilRows .Q1 (by decide)
  refine ⟨by decide, ?_⟩
  rw [h1, (h5 (by decide)).1]

/-- C4 as stated fails: for `[{Month: "Feb Week 1"}, {Month: "Jan Week 1"}]` under Q1 the
labels are February then January, while the canonical month order of Q1 would put January
first. -/
theorem labels_not_canonical_order :
    ∃ cd, updateChartData (.array febThenJanRows) .Q1 = some (.setChartData cd)
      ∧ cd.labels = [.str "Feb Week 1", .str "Jan Week 1"]
      ∧ (canonicalLabels .Q1 febThenJanRows).map JsValue.str
          = [.str "Jan Week 1", .str "Feb Week 1"]
      ∧ cd.labels ≠ (canonicalLabels .Q1 febThenJanRows).map JsValue.str :=
  ⟨{ labels := [.str "Feb Week 1", .str "Jan Week 1"],
     datasets := datasetConfigs.map (fun cfg =>
       { label := cfg.1,
         data := if cfg.1 == "Pass" then [.fin 2, .fin 1] else [.fin tenth, .fin tenth],
         backgroundColor := cfg.2 }) },
   by decide, by decide, by decide, by decide⟩

/-- C4 amended: for a non-empty row array and any quarter, the label sequence is the
concatenation of the month buckets in the order in which the months first occur among the
kept rows of the input; it is the canonical month order of the quarter whenever the months
first occur in that order. -/
theorem labels_first_occurrence_order (rows : List Row) (q : Quarter) (h : rows ≠ []) :
    ∃ cd, updateChartData (.array rows) q = some (.setChartData cd)
      ∧ cd.labels = (firstOccurrenceLabels q rows).map JsValue.str
      ∧ (List.Sublist (firstOccurrences ((keptMonths q rows).map firstToken)) (quarters q) →
          cd.labels = (canonicalLabels q rows).map JsValue.str) := by
  refine ⟨chartOf rows q, updateChartData_eq rows q h, chartOf_labels rows q, ?_⟩
  intro hsub
  rw [chartOf_labels]
  congr 1
  unfold firstOccurrenceLabels canonicalLabels
  symm
  apply flatMap_sublist_of_nil _ _ _ hsub (nodup_quarters q)
  intro m _ hm
  rw [List.filter_eq_nil_iff]
  intro s hs hsm
  exact hm ((mem_firstOccurrences _ _).mpr (List.mem_map.mpr ⟨s, hs, by simpa using hsm⟩))

/-- C4 amended at a concrete input: the February-then-January rows under Q1 give the
labels in input order. -/
theorem labels_first_occurrence_order_witness :
    febThenJanRows ≠ [] ∧ ∃ cd, updateChartData (.array febThenJanRows) .Q1
        = some (.setChartData cd)
      ∧ cd.labels = [.str "Feb Week 1", .str "Jan Week 1"] := by
  obtain ⟨cd, h1, h2, _⟩ := labels_first_occurrence_order febThenJanRows .Q1 (by decide)
  exact ⟨by decide, cd, h1, h2.trans (by decide)⟩

/-- C5: for a non-empty row array and any quarter, labels with the same first token are
contiguous in the label sequence (a label between two labels of one month is of that month),
and the labels of one month are the kept `Month` strings of that month in input order. -/
theorem labels_contiguous_in_input_order (rows : List Row) (q : Quarter) (h : rows ≠ []) :
    ∃ (cd : ChartData) (strs : List String),
      updateChartData (.array rows) q = some (.setChartData cd)
      ∧ cd.labels = strs.map JsValue.str
      ∧ (∀ (i j k : Nat) (x y z : String), i < j → j < k →
          strs[i]? = some x → strs[j]? = some y → strs[k]? = some z →
          firstToken x = firstToken z → firstToken y = firstToken x)
      ∧ (∀ m, strs.filter (fun s => firstToken s == m)
          = (keptMonths q rows).filter (fun s => firstToken s == m)) := by
  refine ⟨chartOf rows q, firstOccurrenceLabels q rows, updateChartData_eq rows q h,
    chartOf_labels rows q, ?_, firstOccurrenceLabels_filter q rows⟩
  exact contiguous_blocks firstToken
    (fun m => (keptMonths q rows).filter (fun s => firstToken s == m))
    (fun m s hs => by simpa using (List.mem_filter.mp hs).2) _ (nodup_firstOccurrences _)

theorem chartOf_datasets_labels (rows : List Row) (q : Quarter) :
    (chartOf rows q).datasets.map (fun ds => ds.label) = metricLabels := by
  simp [chartOf, datasetConfigs, metricLabels]

theorem chartOf_data (rows : List Row) (q : Quarter) (ds : Dataset)
    (hds : ds ∈ (chartOf rows q).datasets) :
    ds.label ∈ metricLabels ∧ ds.data = (firstOccurrenceLabels q rows).map
      (fun s => floorValue (fieldAt (rows.filter (keptBySpec q)) ds.label s)) := by
  constructor
  · rw [← chartOf_datasets_labels rows q]
    exact List.mem_map_of_mem _ hds
  · simp only [chartOf, List.mem_map] at hds
    obtain ⟨cfg, _, rfl⟩ := hds
    simp [labelStrings_eq]

theorem fieldAt_mem (ks : List Row) (label s : String) :
    fieldAt ks label s = .undefined ∨ ∃ r ∈ ks, fieldAt ks label s = fieldOf r label := by
  unfold fieldAt firstWithMonth
  cases hf : ks.find? (fun r => monthString r == s) with
  | none => exact Or.inl rfl
  | some r => exact Or.inr ⟨r, List.mem_of_find?_eq_some hf, rfl⟩

/-- C2: for a non-empty row array and any quarter, `updateChartData` sets a chart with
exactly nine series, labelled Test Cases Authored, TC Execution, Pass, Fail, Defects Posted,
High, Med, Low, Cycles in this order; each series is as long as the label sequence and its
value at a label is `max(v or 0, 0.1)` for `v` the field named after the metric in the
first kept row, in input order, whose `Month` equals the label; such a row exists for
every label. -/
theorem series_assembly (rows : List Row) (q : Quarter) (h : rows ≠ []) :
    ∃ (cd : ChartData) (strs : List String),
      updateChartData (.array rows) q = some (.setChartData cd)
      ∧ cd.labels = strs.map JsValue.str
      ∧ cd.datasets.map (fun ds => ds.label) = metricLabels
      ∧ cd.datasets.length = 9
      ∧ (∀ ds ∈ cd.datasets, ds.data.length = strs.length
          ∧ ds.data = strs.map (fun s =>
              floorValue (fieldAt (rows.filter (keptBySpec q)) ds.label s)))
      ∧ (∀ s ∈ strs, ∃ r, (rows.filter (keptBySpec q)).find? (fun r => monthString r == s)
            = some r ∧ ∀ label, fieldAt (rows.filter (keptBySpec q)) label s = fieldOf r label)
      ∧ (∀ ds ∈ cd.datasets, ∀ (i j : Nat), strs[i]? = strs[j]? → ds.data[i]? = ds.data[j]?) := by
  refine ⟨chartOf rows q, firstOccurrenceLabels q rows, updateChartData_eq rows q h,
    chartOf_labels rows q, chartOf_datasets_labels rows q, ?_, ?_, ?_, ?_⟩
  rotate_left 3
  · intro ds hds i j hij
    rw [(chartOf_data rows q ds hds).2, List.getElem?_map, List.getElem?_map, hij]
  · simp [chartOf, datasetConfigs]
  · intro ds hds
    have := (chartOf_data rows q ds hds).2
    exact ⟨by rw [this, List.length_map], this⟩
  · intro s hs
    have hk : ∀ r ∈ rows.filter (keptBySpec q), monthOf r = some (monthString r) :=
      fun r hr => monthOf_of_kept (List.mem_filter.mp hr).2
    rw [← labelStrings_eq] at hs
    obtain ⟨r, _, _, hfirst, _, _⟩ := lookups_groupsOf _ hk s hs
    refine ⟨r, hfirst, fun label => ?_⟩
    simp [fieldAt, hfirst]

/-- Scenario 1 (C2 at a concrete input): `[{Month: "Jan Week 1", Pass: 5}]` under Q1 gives
the labels `["Jan Week 1"]`, the Pass series `[5]` and the Fail series `[0.1]`. -/
theorem series_assembly_witness :
    januaryRows ≠ [] ∧ ∃ cd, updateChartData (.array januaryRows) .Q1
        = some (.setChartData cd)
      ∧ cd.labels = [.str "Jan Week 1"]
      ∧ cd.datasets.map (fun ds => ds.label) = metricLabels
      ∧ cd.series "Pass" = some [.fin 5]
      ∧ cd.series "Fail" = some [.fin (1 / 10)] := by
  obtain ⟨cd, _, h1, _, h3, _⟩ := series_assembly januaryRows .Q1 (by decide)
  have h2 : updateChartData (.array januaryRows) .Q1
      = some (.setChartData (chartOf januaryRows .Q1)) := by decide
  have hcd : cd = chartOf januaryRows .Q1 := by
    rw [h1] at h2
    injection h2 with h2
    injection h2
  refine ⟨by decide, cd, h1, ?_, h3, ?_, ?_⟩
  · rw [hcd]; decide
  · rw [hcd]; decide
  · rw [hcd, ← tenth_eq]; decide

/-- The value a series holds at a label position: the floor rule applied to the field,
named after the series, of the first kept row whose `Month` is that label. -/
theorem chartOf_value_at (rows : List Row) (q : Quarter) (ds : Dataset)
    (hds : ds ∈ (chartOf rows q).datasets) (i : Nat) (s : String)
    (hs : (firstOccurrenceLabels q rows)[i]? = some s) :
    ∃ r, (rows.filter (keptBySpec q)).find? (fun r => monthString r == s) = some r
      ∧ r ∈ rows ∧ ds.label ∈ metricLabels
      ∧ ds.data[i]? = some (floorValue (fieldOf r ds.label)) := by
  obtain ⟨hlabel, hdata⟩ := chartOf_data rows q ds hds
  have hk : ∀ r ∈ rows.filter (keptBySpec q), monthOf r = some (monthString r) :=
    fun r hr => monthOf_of_kept (List.mem_filter.mp hr).2
  have hmem : s ∈ labelStrings (rows.filter (keptBySpec q)) := by
    rw [labelStrings_eq]
    exact List.getElem?_mem hs
  obtain ⟨r, hrk, _, hfirst, _, _⟩ := lookups_groupsOf _ hk s hmem
  refine ⟨r, hfirst, List.mem_of_mem_filter hrk, hlabel, ?_⟩
  rw [hdata, List.getElem?_map, hs]
  simp [fieldAt, hfirst]

/-- C3: for a non-empty row array whose metric fields are numbers or absent and any
quarter, every value of every series is at least 0.1, hence neither negative nor 0; and
the value a series holds at the position of a label is the floor rule applied to the field,
named after the series, of the first kept row with that `Month`: exactly 0.1 when that
field is missing or a number that is 0, negative or positive but not above 0.1, and the
number itself when it is at least 0.1. -/
theorem floor_invariant (rows : List Row) (q : Quarter) (h : rows ≠ [])
    (hnum : ∀ r ∈ rows, ∀ label ∈ metricLabels, (fieldOf r label).isNumberOrAbsent = true) :
    ∃ (cd : ChartData) (strs : List String),
      updateChartData (.array rows) q = some (.setChartData cd)
      ∧ cd.labels = strs.map JsValue.str
      ∧ (∀ ds ∈ cd.datasets, ∀ v ∈ ds.data,
          JsNumber.le (.fin (1 / 10)) v = true ∧ JsNumber.le v (.fin 0) = false)
      ∧ (∀ ds ∈ cd.datasets, ds.data.length = strs.length)
      ∧ (∀ ds ∈ cd.datasets, ∀ (i : Nat) (s : String), strs[i]? = some s →
          ∃ r, (rows.filter (keptBySpec q)).find? (fun r => monthString r == s) = some r
            ∧ ds.data[i]? = some (floorValue (fieldOf r ds.label))
            ∧ (fieldOf r ds.label = .undefined → ds.data[i]? = some (.fin (1 / 10)))
            ∧ (∀ x : ℚ, fieldOf r ds.label = .num (.fin x) → x ≤ 1 / 10 →
                ds.data[i]? = some (.fin (1 / 10)))
            ∧ (∀ x : ℚ, fieldOf r ds.label = .num (.fin x) → 1 / 10 ≤ x →
                ds.data[i]? = some (.fin x))) := by
  refine ⟨chartOf rows q, firstOccurrenceLabels q rows, updateChartData_eq rows q h,
    chartOf_labels rows q, ?_, ?_, ?_⟩
  · intro ds hds v hv
    obtain ⟨hlabel, hdata⟩ := chartOf_data rows q ds hds
    rw [hdata] at hv
    obtain ⟨s, _, rfl⟩ := List.mem_map.mp hv
    have hfield : (fieldAt (rows.filter (keptBySpec q)) ds.label s).isNumberOrAbsent
        = true := by
      rcases fieldAt_mem (rows.filter (keptBySpec q)) ds.label s with h0 | ⟨r, hr, h1⟩
      · rw [h0]; rfl
      · rw [h1]; exact hnum r (List.mem_of_mem_filter hr) _ hlabel
    have hle : JsNumber.le (.fin (1 / 10))
        (floorValue (fieldAt (rows.filter (keptBySpec q)) ds.label s)) = true := by
      generalize fieldAt (rows.filter (keptBySpec q)) ds.label s = field at hfield
      cases field with
      | undefined => exact tenth_le_floorValue_undefined
      | num n => exact tenth_le_floorValue_num n
      | null => simp [JsValue.isNumberOrAbsent] at hfield
      | bool b => simp [JsValue.isNumberOrAbsent] at hfield
      | str t => simp [JsValue.isNumberOrAbsent] at hfield
    exact ⟨hle, (le_zero_of_tenth_le _ hle).2⟩
  · intro ds hds
    rw [(chartOf_data rows q ds hds).2, List.length_map]
  · intro ds hds i s hs
    obtain ⟨r, hfirst, _, _, hval⟩ := chartOf_value_at rows q ds hds i s hs
    refine ⟨r, hfirst, hval, ?_, ?_, ?_⟩
    · intro hf
      rw [hval, hf, floorValue_undefined]
    · intro x hf hx
      rw [hval, hf, floorValue_le_of_fin x hx]
    · intro x hf hx
      rw [hval, hf, floorValue_fin, max_eq_left hx]

/-- Scenario 3 (C3 at a concrete input): `[{Month: "Feb Week 2", Pass: 0}]` under Q1 gives
the Pass series `[0.1]`, the zero of the `Pass` cell being emitted as 0.1 at the first
position, and every value of the chart is at least 0.1. -/
theorem floor_invariant_witness :
    februaryZeroRows ≠ [] ∧ ∃ cd, updateChartData (.array februaryZeroRows) .Q1
        = some (.setChartData cd)
      ∧ cd.series "Pass" = some [.fin (1 / 10)]
      ∧ (∀ ds ∈ cd.datasets, ds.label = "Pass" → ds.data[0]? = some (.fin (1 / 10)))
      ∧ ∀ ds ∈ cd.datasets, ∀ v ∈ ds.data, JsNumber.le (.fin (1 / 10)) v = true := by
  obtain ⟨cd, strs, h1, hl, h2, _, h5⟩ :=
    floor_invariant februaryZeroRows .Q1 (by decide) (by decide)
  have h3 : updateChartData (.array februaryZeroRows) .Q1
      = some (.setChartData (chartOf februaryZeroRows .Q1)) := by decide
  have hcd : cd = chartOf februaryZeroRows .Q1 := by
    rw [h1] at h3
    injection h3 with h3
    injection h3
  have hstrs : strs = ["Feb Week 2"] := by
    have hm : strs.map JsValue.str = ["Feb Week 2"].map JsValue.str := by
      rw [← hl, hcd]; decide
    exact List.map_injective_iff.mpr (fun a b hab => by injection hab) hm
  refine ⟨by decide, cd, h1, ?_, ?_, fun ds hds v hv => (h2 ds hds v hv).1⟩
  · rw [hcd, ← tenth_eq]; decide
  · intro ds hds hlabel
    obtain ⟨r, hfind, _, _, hlow, _⟩ := h5 ds hds 0 "Feb Week 2" (by rw [hstrs]; rfl)
    have hr : r = sheetRow "Feb Week 2" "Pass" 0 := by
      have hf : (februaryZeroRows.filter (keptBySpec .Q1)).find?
          (fun r => monthString r == "Feb Week 2")
          = some (sheetRow "Feb Week 2" "Pass" 0) := by decide
      rw [hf] at hfind
      injection hfind with hfind
      exact hfind.symm
    exact hlow 0 (by rw [hr, hlabel]; decide) (by norm_num)

/-- C8 as stated fails: `[{Month: "Jan Week 1", Pass: "N/A"}]` has a string in a metric
field, and under Q1 the Pass series is `[NaN]`, which is not a non-negative number. -/
theorem series_value_nan :
    (∀ r ∈ notAvailableRows, ∀ label ∈ metricLabels,
        (fieldOf r label).isNumberOrString = true)
      ∧ ∃ cd, updateChartData (.array notAvailableRows) .Q1 = some (.setChartData cd)
        ∧ cd.series "Pass" = some [.nan]
        ∧ (∃ ds ∈ cd.datasets, ∃ v ∈ ds.data, JsNumber.le (.fin 0) v = false) :=
  ⟨by decide, chartOf notAvailableRows .Q1, by decide, by decide, by decide⟩

/-- C8 amended: for a non-empty row array and any quarter, the value a series holds at the
position of a label comes from the field, named after the series, of the first kept row
with that `Month`: when that field is a number, or a string that `ToNumber` converts to a
number, or absent, the value is a number that is at least 0.1, hence non-negative and not
`NaN`; when it is a non-empty string that does not convert, such as `N/A`, the value is
`NaN`.  So when every metric field of the array is of the first kind, every value of every
series is a number that is at least 0.1. -/
theorem series_values_numeric (rows : List Row) (q : Quarter) (h : rows ≠ []) :
    ∃ (cd : ChartData) (strs : List String),
      updateChartData (.array rows) q = some (.setChartData cd)
      ∧ cd.labels = strs.map JsValue.str
      ∧ (∀ ds ∈ cd.datasets, ds.data.length = strs.length)
      ∧ (∀ ds ∈ cd.datasets, ∀ (i : Nat) (s : String), strs[i]? = some s →
          ∃ r, (rows.filter (keptBySpec q)).find? (fun r => monthString r == s) = some r
            ∧ ds.data[i]? = some (floorValue (fieldOf r ds.label))
            ∧ ((fieldOf r ds.label).isNumeric = true →
                ∃ v, ds.data[i]? = some v ∧ v ≠ .nan ∧ JsNumber.le (.fin 0) v = true
                  ∧ JsNumber.le (.fin (1 / 10)) v = true)
            ∧ (∀ t : String, fieldOf r ds.label = .str t → t ≠ "" →
                stringToNumber t = .nan → ds.data[i]? = some .nan))
      ∧ ((∀ r ∈ rows, ∀ label ∈ metricLabels, (fieldOf r label).isNumeric = true) →
          ∀ ds ∈ cd.datasets, ∀ v ∈ ds.data,
            v ≠ .nan ∧ JsNumber.le (.fin 0) v = true
              ∧ JsNumber.le (.fin (1 / 10)) v = true) := by
  have hbound : ∀ field : JsValue, field.isNumeric = true →
      floorValue field ≠ .nan ∧ JsNumber.le (.fin 0) (floorValue field) = true
        ∧ JsNumber.le (.fin (1 / 10)) (floorValue field) = true := by
    intro field hfield
    have hle : JsNumber.le (.fin (1 / 10)) (floorValue field) = true := by
      cases field with
      | undefined => exact tenth_le_floorValue_undefined
      | num n => exact tenth_le_floorValue_num n
      | null => simp [JsValue.isNumeric] at hfield
      | bool b => simp [JsValue.isNumeric] at hfield
      | str t =>
        apply tenth_le_floorValue_str
        simpa [JsValue.isNumeric] using hfield
    refine ⟨?_, (le_zero_of_tenth_le _ hle).1, hle⟩
    intro hnan
    rw [hnan] at hle
    simp [JsNumber.le] at hle
  refine ⟨chartOf rows q, firstOccurrenceLabels q rows, updateChartData_eq rows q h,
    chartOf_labels rows q, ?_, ?_, ?_⟩
  · intro ds hds
    rw [(chartOf_data rows q ds hds).2, List.length_map]
  · intro ds hds i s hs
    obtain ⟨r, hfirst, _, _, hval⟩ := chartOf_value_at rows q ds hds i s hs
    refine ⟨r, hfirst, hval, ?_, ?_⟩
    · intro hfield
      exact ⟨_, hval, hbound _ hfield⟩
    · intro t hf ht hnan
      rw [hval, hf, floorValue_str_nan t ht hnan]
  · intro hnum ds hds v hv
    obtain ⟨hlabel, hdata⟩ := chartOf_data rows q ds hds
    rw [hdata] at hv
    obtain ⟨s, _, rfl⟩ := List.mem_map.mp hv
    apply hbound
    rcases fieldAt_mem (rows.filter (keptBySpec q)) ds.label s with h0 | ⟨r, hr, h1⟩
    · rw [h0]; rfl
    · rw [h1]; exact hnum r (List.mem_of_mem_filter hr) _ hlabel

/-- C8 amended at concrete inputs: `[{Month: "Jan Week 1", Pass: "5"}]` under Q1 gives the
Pass series `[5]`, every value a number that is at least 0.1, and
`[{Month: "Jan Week 1", Pass: "N/A"}]` under Q1 gives `NaN` at the first position of the
Pass series. -/
theorem series_values_numeric_witness :
    (numericStringRows ≠ [] ∧ ∃ cd, updateChartData (.array numericStringRows) .Q1
        = some (.setChartData cd)
      ∧ cd.series "Pass" = some [.fin 5]
      ∧ ∀ ds ∈ cd.datasets, ∀ v ∈ ds.data, v ≠ .nan ∧ JsNumber.le (.fin 0) v = true)
    ∧ (notAvailableRows ≠ [] ∧ ∃ cd, updateChartData (.array notAvailableRows) .Q1
        = some (.setChartData cd)
      ∧ ∀ ds ∈ cd.datasets, ds.label = "Pass" → ds.data[0]? = some .nan) := by
  constructor
  · obtain ⟨cd, _, h1, _, _, _, h2⟩ :=
      series_values_numeric numericStringRows .Q1 (by decide)
    have h3 : updateChartData (.array numericStringRows) .Q1
        = some (.setChartData (chartOf numericStringRows .Q1)) := by decide
    have hcd : cd = chartOf numericStringRows .Q1 := by
      rw [h1] at h3
      injection h3 with h3
      injection h3
    have h4 := h2 (by decide)
    refine ⟨by decide, cd, h1, ?_,
      fun ds hds v hv => ⟨(h4 ds hds v hv).1, (h4 ds hds v hv).2.1⟩⟩
    rw [hcd]; decide
  · obtain ⟨cd, strs, h1, h2, _, h4, _⟩ :=
      series_values_numeric notAvailableRows .Q1 (by decide)
    have h3 : updateChartData (.array notAvailableRows) .Q1
        = some (.setChartData (chartOf notAvailableRows .Q1)) := by decide
    have hcd : cd = chartOf notAvailableRows .Q1 := by
      rw [h1] at h3
      injection h3 with h3
      injection h3
    have hstrs : strs = ["Jan Week 1"] := by
      have hl : strs.map JsValue.str = ["Jan Week 1"].map JsValue.str := by
        rw [← h2, hcd]; decide
      exact List.map_injective_iff.mpr (fun a b hab => by injection hab) hl
    refine ⟨by decide, cd, h1, ?_⟩
    intro ds hds hlabel
    obtain ⟨r, hfind, _, _, hnan⟩ := h4 ds hds 0 "Jan Week 1" (by rw [hstrs]; rfl)
    have hr : r = .record [("Month", .str "Jan Week 1"), ("Pass", .str "N/A")] := by
      have hf : (notAvailableRows.filter (keptBySpec .Q1)).find?
          (fun r => monthString r == "Jan Week 1")
          = some (.record [("Month", .str "Jan Week 1"), ("Pass", .str "N/A")]) := by decide
      rw [hf] at hfind
      injection hfind with hfind
      exact hfind.symm
    exact hnan "N/A" (by rw [hr, hlabel]; decide) (by decide) (by decide)

theorem kept_not_malformed (q : Quarter) (r : Row) (h : keptBySpec q r = true) :
    malformedRow r = false := by
  cases r with
  | prim v => simp [keptBySpec, monthOf] at h
  | record fields =>
    simp only [keptBySpec, monthOf] at h
    simp only [malformedRow]
    cases hl : fields.lookup "Month" with
    | none => simp [hl] at h
    | some v => cases v <;> simp [hl] at h ⊢

theorem chartOf_filter_malformed (rows : List Row) (q : Quarter) :
    chartOf (rows.filter (fun r => !malformedRow r)) q = chartOf rows q := by
  have : (rows.filter (fun r => !malformedRow r)).filter (keptBySpec q)
      = rows.filter (keptBySpec q) := by
    rw [List.filter_filter]
    apply List.filter_congr
    intro r _
    cases hk : keptBySpec q r
    · simp
    · simp [kept_not_malformed q r hk]
  simp only [chartOf, this]

/-- C7: for a non-empty array of rows and any quarter, `updateChartData` throws nothing and
sets a chart; rows that are not objects or whose `Month` is absent or not a string are
skipped: lines 167-205 compute the same chart from the array without them, and so does
`updateChartData` when at least one row remains. -/
theorem malformed_rows_skipped (rows : List Row) (q : Quarter) (h : rows ≠ []) :
    ∃ cd, updateChartData (.array rows) q = some (.setChartData cd)
      ∧ buildChartData (rows.filter (fun r => !malformedRow r)) q = some cd
      ∧ (rows.filter (fun r => !malformedRow r) ≠ [] →
          updateChartData (.array (rows.filter (fun r => !malformedRow r))) q
            = some (.setChartData cd)) := by
  refine ⟨chartOf rows q, updateChartData_eq rows q h, ?_, ?_⟩
  · rw [buildChartData_eq, chartOf_filter_malformed]
  · intro h2
    rw [updateChartData_eq _ q h2, chartOf_filter_malformed]

/-- C7 at a concrete input: a January row among a `null`, an `undefined`, a row without
`Month` and a row with a numeric `Month` gives the chart of the January row alone. -/
theorem malformed_rows_skipped_witness :
    mixedRows ≠ [] ∧ mixedRows.filter (fun r => !malformedRow r) = januaryRows
      ∧ ∃ cd, updateChartData (.array mixedRows) .Q1 = some (.setChartData cd)
        ∧ updateChartData (.array januaryRows) .Q1 = some (.setChartData cd) := by
  obtain ⟨cd, h1, _, h3⟩ := malformed_rows_skipped mixedRows .Q1 (by decide)
  exact ⟨by decide, by decide, cd, h1, h3 (by decide)⟩

/-- C10: for a non-empty array of rows and any quarter, filtering, grouping and label
building succeed, and at every label the lookups of lines 198-200 succeed: the label is a
string, the bucket of its first token exists, `find` returns a row of that bucket (not
`undefined`), that row is truthy and each of its metric reads yields a value, taken as the
operand unless falsy; so `updateChartData` throws nothing and sets a chart. -/
theorem lookups_never_fail (rows : List Row) (q : Quarter) (h : rows ≠ []) :
    ∃ (filteredData : List Row) (groupedData : Groups) (labels : List JsValue)
      (cd : ChartData),
      filterT (filterCallback (quarters q)) rows = some filteredData
      ∧ reduceT groupCallback [] filteredData = some groupedData
      ∧ labelsOf groupedData = some labels
      ∧ (∀ monthLabel ∈ labels, ∃ (s : String) (monthData : List Row) (rowData : Row),
          monthLabel = .str s
          ∧ groupedData.get (firstToken s) = some monthData
          ∧ findT (fun row => (row.get "Month").map (fun m => m.strictEq monthLabel))
              monthData = some (some rowData)
          ∧ rowData ∈ monthData
          ∧ rowData.toBoolean = true
          ∧ ∀ label, ∃ v, rowData.get label = some v
              ∧ metricOperand (some rowData) label
                  = some (if v.toBoolean then v else .num (.fin 0)))
      ∧ datasetsOf groupedData labels = some cd.datasets
      ∧ cd.labels = labels
      ∧ updateChartData (.array rows) q = some (.setChartData cd) := by
  have hk : ∀ r ∈ rows.filter (keptBySpec q), monthOf r = some (monthString r) :=
    fun r hr => monthOf_of_kept (List.mem_filter.mp hr).2
  refine ⟨rows.filter (keptBySpec q), groupsOf (rows.filter (keptBySpec q)),
    (labelStrings (rows.filter (keptBySpec q))).map JsValue.str, chartOf rows q,
    filterT_eq_filter _ _ (filterCallback_eq q) rows, ?_, labelsOf_groupsOf _ hk, ?_,
    datasetsOf_groupsOf _ hk, rfl, updateChartData_eq rows q h⟩
  · rw [reduceT_groupCallback _ _ hk, foldl_push_eq_groupsOf]
  · intro monthLabel hmem
    obtain ⟨s, hs, rfl⟩ := List.mem_map.mp hmem
    obtain ⟨r, hrk, hrs, _, hget, hfind⟩ := lookups_groupsOf _ hk s hs
    have htb := (get_month_of_monthOf (hk r hrk)).1
    refine ⟨s, _, r, rfl, hget, hfind, ?_, htb, fun label => ⟨fieldOf r label, ?_, ?_⟩⟩
    · rw [List.mem_filter]
      exact ⟨hrk, by simp [monthKey, hrs]⟩
    · exact get_fieldOf (hk r hrk) label
    · simp [metricOperand, htb, get_fieldOf (hk r hrk) label]

/-- C10 at a concrete input: on the interleaved Q1 rows every stage succeeds and a chart is
set. -/
theorem lookups_never_fail_witness :
    interleavedRows ≠ [] ∧ ∃ cd, updateChartData (.array interleavedRows) .Q1
        = some (.setChartData cd)
      ∧ cd.labels = [.str "Jan Week 2", .str "Jan Week 1", .str "Feb Week 1"] := by
  obtain ⟨_, _, labels, cd, _, _, _, _, _, h6, h7⟩ :=
    lookups_never_fail interleavedRows .Q1 (by decide)
  have h3 : updateChartData (.array interleavedRows) .Q1
      = some (.setChartData (chartOf interleavedRows .Q1)) := by decide
  have hcd : cd = chartOf interleavedRows .Q1 := by
    rw [h7] at h3
    injection h3 with h3
    injection h3
  refine ⟨by decide, cd, h7, ?_⟩
  rw [hcd]; decide

/-- C5 at a concrete input: January week 2, February week 1, January week 1 under Q1 keep
the January labels together and in input order, week 2 before week 1. -/
theorem labels_contiguous_in_input_order_witness :
    interleavedRows ≠ [] ∧ ∃ (cd : ChartData) (strs : List String),
      updateChartData (.array interleavedRows) .Q1 = some (.setChartData cd)
      ∧ cd.labels = strs.map JsValue.str
      ∧ strs.filter (fun s => firstToken s == "Jan") = ["Jan Week 2", "Jan Week 1"] := by
  obtain ⟨cd, strs, h1, h2, _, h4⟩ :=
    labels_contiguous_in_input_order interleavedRows .Q1 (by decide)
  exact ⟨by decide, cd, strs, h1, h2, (h4 "Jan").trans (by decide)⟩

/-! ## The view state -/

theorem fetchData_of_failed (s : ViewState) (o : FetchOutcome) (h : fetchFailed o = true) :
    fetchData s o = catchBlock s ∧ storesRawData o = false := by
  cases o with
  | rejected => exact ⟨rfl, rfl⟩
  | response ok body =>
    cases ok with
    | false => exact ⟨rfl, rfl⟩
    | true =>
      cases body with
      | none => exact ⟨rfl, rfl⟩
      | some d =>
        cases d with
        | notArray => exact ⟨rfl, rfl⟩
        | array rows =>
          simp only [fetchFailed] at h
          simp [fetchData, storesRawData, h]

theorem fetchData_of_loaded (s : ViewState) (o : FetchOutcome) (h : fetchFailed o = false) :
    ∃ rows, o = .response true (some (.array rows)) ∧ rows ≠ [] ∧ storesRawData o = true
      ∧ fetchData s o = { s with rawData := some rows,
                                 chartData := some (chartOf rows .Q1) } := by
  cases o with
  | rejected => simp [fetchFailed] at h
  | response ok body =>
    cases ok with
    | false => simp [fetchFailed] at h
    | true =>
      cases body with
      | none => simp [fetchFailed] at h
      | some d =>
        cases d with
        | notArray => simp [fetchFailed] at h
        | array rows =>
          simp only [fetchFailed] at h
          have hne : rows ≠ [] := by
            intro h0; subst h0; simp at h
          refine ⟨rows, rfl, hne, by simp [storesRawData, h], ?_⟩
          simp [fetchData, h, initialState, updateChartData_eq rows .Q1 hne, applyUpdate]

theorem quarterEffect_of_rows (s : ViewState) (rows : List Row) (h : s.rawData = some rows)
    (hne : rows ≠ []) :
    quarterEffect s = some { s with chartData := some (chartOf rows s.selectedQuarter) } := by
  simp [quarterEffect, h, updateChartData_eq rows _ hne, applyUpdate]

/-- In every reachable state a loaded array is non-empty and the chart is the one derived
from it and the selected quarter. -/
theorem reachable_chart (s : ViewState) (hs : Reachable s) :
    ∀ rows, s.rawData = some rows →
      rows ≠ [] ∧ s.chartData = some (chartOf rows s.selectedQuarter) := by
  induction hs with
  | init => intro rows h; simp [initialState] at h
  | @step s t e _ hstep ih =>
    intro rows hraw
    cases e with
    | fetchSettled o =>
      cases hf : fetchFailed o with
      | true =>
        obtain ⟨h1, h2⟩ := fetchData_of_failed s o hf
        simp only [step, h2, Bool.false_eq_true, if_false, h1, Option.some.injEq] at hstep
        subst hstep
        exact ih rows hraw
      | false =>
        obtain ⟨rows1, _, hne, h2, h3⟩ := fetchData_of_loaded s o hf
        simp only [step, h2, if_true, h3] at hstep
        rw [quarterEffect_of_rows _ rows1 rfl hne] at hstep
        simp only [Option.some.injEq] at hstep
        subst hstep
        simp only [Option.some.injEq] at hraw
        subst hraw
        exact ⟨hne, rfl⟩
    | selectQuarter q =>
      by_cases hq : q = s.selectedQuarter
      · simp only [step, hq, if_true, Option.some.injEq] at hstep
        subst hstep
        exact ih rows hraw
      · simp only [step, hq, if_false] at hstep
        cases hr : s.rawData with
        | none =>
          simp only [quarterEffect, hr, Option.some.injEq] at hstep
          subst hstep
          simp [hr] at hraw
        | some rows1 =>
          have hne := (ih rows1 hr).1
          rw [quarterEffect_of_rows { s with selectedQuarter := q } rows1 hr hne] at hstep
          simp only [Option.some.injEq] at hstep
          subst hstep
          simp only [hr, Option.some.injEq] at hraw
          subst hraw
          exact ⟨hne, rfl⟩

/-- C6: from the pending state (nothing loaded, no error), a fetch outcome that is a
rejected request, a non-OK status, an unreadable body, a payload that is not an array or an
empty array leads to a state whose error is the fixed message of line 147 and whose
`rawData` and `chartData` are still `null`, and the view shows that message and no chart;
any other outcome is a non-empty array payload, which leaves the error `null`, stores the
array and sets the chart derived from it, and the view shows the chart. -/
theorem fetch_outcome_states (q : Quarter) (o : FetchOutcome) :
    (fetchFailed o = true →
      ∃ t, step (pendingState q) (.fetchSettled o) = some t
        ∧ t.error = some "Failed to load data. Please try again later."
        ∧ t.rawData = none ∧ t.chartData = none
        ∧ render t = .errorText "Failed to load data. Please try again later.")
    ∧ (fetchFailed o = false →
      ∃ (t : ViewState) (rows : List Row) (cd : ChartData),
        o = .response true (some (.array rows)) ∧ rows ≠ []
        ∧ step (pendingState q) (.fetchSettled o) = some t
        ∧ t.error = none ∧ t.rawData = some rows ∧ t.chartData = some cd
        ∧ updateChartData (.array rows) q = some (.setChartData cd)
        ∧ render t = .chart cd) := by
  constructor
  · intro hf
    obtain ⟨h1, h2⟩ := fetchData_of_failed (pendingState q) o hf
    refine ⟨catchBlock (pendingState q), ?_, rfl, rfl, rfl, ?_⟩
    · simp [step, h1, h2]
    · simp [render, catchBlock, fetchErrorMessage]
  · intro hf
    obtain ⟨rows, ho, hne, h2, h3⟩ := fetchData_of_loaded (pendingState q) o hf
    refine ⟨{ pendingState q with rawData := some rows, chartData := some (chartOf rows q) },
      rows, chartOf rows q, ho, hne, ?_, rfl, rfl, rfl, updateChartData_eq rows q hne, rfl⟩
    simp only [step, h2, if_true, h3]
    rw [quarterEffect_of_rows _ rows rfl hne]
    rfl

/-- Scenarios 4 and 5 (C6 at concrete outcomes): an HTTP 500 response and the payload `{}`
both lead from the initial state to the same error state, and the payload
`[{Month: "Jan Week 1", Pass: 5}]` leads to a chart without error. -/
theorem fetch_outcome_states_witness :
    (∃ t, step initialState (.fetchSettled (.response false none)) = some t
        ∧ step initialState (.fetchSettled (.response true (some .notArray))) = some t
        ∧ t.error = some "Failed to load data. Please try again later."
        ∧ t.chartData = none)
    ∧ (∃ t cd, step initialState
          (.fetchSettled (.response true (some (.array januaryRows)))) = some t
        ∧ t.error = none ∧ t.chartData = some cd) := by
  obtain ⟨t, h1, h2, _, h4, _⟩ :=
    (fetch_outcome_states .Q1 (.response false none)).1 (by decide)
  obtain ⟨t2, rows, cd, _, _, h5, h6, _, h7, _⟩ :=
    (fetch_outcome_states .Q1 (.response true (some (.array januaryRows)))).2 (by decide)
  refine ⟨⟨t, h1, ?_, h2, h4⟩, t2, cd, h5, h6, h7⟩
  have h8 : step initialState (.fetchSettled (.response false none))
      = step initialState (.fetchSettled (.response true (some .notArray))) := by decide
  rw [← h8]; exact h1

/-- C9: in a reachable state whose `rawData` is loaded, selecting a quarter leaves
`rawData` and `error` as they are and makes `chartData` the chart `updateChartData`
derives from that array and that quarter; running the recomputation effect once more
on the result changes nothing. -/
theorem select_quarter_rederives (s : ViewState) (hs : Reachable s) (rows : List Row)
    (hraw : s.rawData = some rows) (q : Quarter) :
    ∃ (t : ViewState) (cd : ChartData), step s (.selectQuarter q) = some t
      ∧ t.rawData = some rows ∧ t.error = s.error ∧ t.selectedQuarter = q
      ∧ updateChartData (.array rows) q = some (.setChartData cd)
      ∧ t.chartData = some cd
      ∧ quarterEffect t = some t := by
  obtain ⟨hne, hchart⟩ := reachable_chart s hs rows hraw
  refine ⟨{ s with selectedQuarter := q, chartData := some (chartOf rows q) }, chartOf rows q,
    ?_, hraw, rfl, rfl, updateChartData_eq rows q hne, rfl, ?_⟩
  · by_cases hq : q = s.selectedQuarter
    · subst hq
      simp only [step, if_true]
      rw [← hchart]
    · simp only [step, hq, if_false]
      rw [quarterEffect_of_rows { s with selectedQuarter := q } rows hraw hne]
  · exact quarterEffect_of_rows
      { s with selectedQuarter := q, chartData := some (chartOf rows q) } rows hraw hne

/-- C9 at a concrete state: after the payload `[{Month: "Jan Week 1", Pass: 5}]` has been
loaded, selecting Q2 keeps the array and sets the chart without labels. -/
theorem select_quarter_rederives_witness :
    Reachable januaryLoadedState ∧ januaryLoadedState.rawData = some januaryRows
      ∧ ∃ t, step januaryLoadedState (.selectQuarter .Q2) = some t
        ∧ t.rawData = some januaryRows ∧ t.error = none ∧ t.chartData = some emptyChart := by
  have hstep : step initialState (.fetchSettled (.response true (some (.array januaryRows))))
      = some januaryLoadedState := by decide
  have hreach : Reachable januaryLoadedState := Reachable.step _ Reachable.init hstep
  obtain ⟨t, cd, h4, h5, h6, _, h8, h9, _⟩ :=
    select_quarter_rederives januaryLoadedState hreach januaryRows rfl .Q2
  have h10 : updateChartData (.array januaryRows) .Q2 = some (.setChartData emptyChart) := by
    decide
  have hcd : cd = emptyChart := by
    rw [h8] at h10
    injection h10 with h10
    injection h10
  exact ⟨hreach, rfl, t, h4, h5, h6, hcd ▸ h9⟩

end ChartMatter
